import Mathlib

/-!
Button debouncing state machine (`src/Button.h`)

Shallow embedding of the `Button` class and proofs about its press, hold and
hold-repeat behaviour.

Modelling conventions:

* `unsigned int` is `w` bits wide (`w` is a parameter: 16 on AVR boards, 32 on
  ARM boards); the fields of that type are natural numbers and the only
  arithmetic on them, the pre-increment `++_msCount`, is taken modulo `2 ^ w`.
* `digitalRead(_pin)` is an input of the model: `callback` takes the value that
  was read as an argument of type `Int`.
* a member function that mutates the object returns the new object next to its
  return value.
-/

/-- The data members of `class Button`. -/
structure Button where
  /-- Digital pin number of the button (`const unsigned int _pin`). -/
  _pin : Nat
  /-- Counter used for changing states (`unsigned int _msCount`). -/
  _msCount : Nat
  /-- Current state of the button (`unsigned int _state`). -/
  _state : Nat
  /-- Whether the current single press has been used (`bool _singleBlocked`). -/
  _singleBlocked : Bool
  /-- Whether we are in a blocking period while `HELD` (`bool _holdBlocked`). -/
  _holdBlocked : Bool
  deriving DecidableEq, Repr

namespace Button

/-- First enumerator of `enum STATES { IDLE, DEBOUNCE, PRESSED, HELD }`. -/
def IDLE : Nat := 0
/-- Second enumerator of `enum STATES`. -/
def DEBOUNCE : Nat := 1
/-- Third enumerator of `enum STATES`. -/
def PRESSED : Nat := 2
/-- Fourth enumerator of `enum STATES`. -/
def HELD : Nat := 3

/-- Debounce time. -/
def MS_DEBOUNCE : Nat := 50
/-- How long the button must be held from press time to enter `HELD` state. -/
def MS_HOLD : Nat := 1000
/-- Duration between repeat events when the button is in the `HELD` state. -/
def MS_HOLD_REPEAT : Nat := 200

/-- Constructor `Button(unsigned int pin)`. -/
def ctor (pin : Nat) : Button :=
  { _pin := pin, _msCount := 0, _state := IDLE, _singleBlocked := false, _holdBlocked := false }

/-- Value of `++_msCount` on a `w`-bit `unsigned int`. -/
def incr (w : Nat) (n : Nat) : Nat := (n + 1) % 2 ^ w

/-- Member function `void callback()`; `read` is the result of `digitalRead(_pin)`.
The `switch` has no `default`, so a pressed read on any other `_state` value
changes nothing. -/
def callback (w : Nat) (b : Button) (read : Int) : Button :=
  if read = 1 then
    { b with _state := IDLE }
  else if b._state = IDLE then
    { b with _state := DEBOUNCE, _msCount := 0 }
  else if b._state = DEBOUNCE then
    if incr w b._msCount > MS_DEBOUNCE then
      { b with _msCount := incr w b._msCount, _singleBlocked := false,
               _holdBlocked := false, _state := PRESSED }
    else
      { b with _msCount := incr w b._msCount }
  else if b._state = PRESSED then
    if incr w b._msCount > MS_HOLD then
      { b with _state := HELD, _msCount := 0 }
    else
      { b with _msCount := incr w b._msCount }
  else if b._state = HELD then
    if incr w b._msCount > MS_HOLD_REPEAT then
      { b with _holdBlocked := false, _msCount := 0 }
    else
      { b with _msCount := incr w b._msCount }
  else
    b

/-- Member function `const bool isHeld() const`. -/
def isHeld (b : Button) : Bool :=
  b._state == HELD

/-- Member function `const bool isHeldRepeat()`: the object after the call and
the value returned. -/
def isHeldRepeat (b : Button) : Button × Bool :=
  if !b._holdBlocked && b.isHeld then
    ({ b with _holdBlocked := true }, true)
  else
    (b, false)

/-- Member function `const bool isPressed() const`. -/
def isPressed (b : Button) : Bool :=
  (b._state == PRESSED) || (b._state == HELD)

/-- Member function `const bool isSinglePressed()`: the object after the call
and the value returned. -/
def isSinglePressed (b : Button) : Button × Bool :=
  if !b._singleBlocked && b.isPressed then
    ({ b with _singleBlocked := true }, true)
  else
    (b, false)

end Button

/-- One call of a public member function from the driving loop or from the
application; a `callback` carries the level that `digitalRead` yields in it. -/
inductive Call where
  | callback (read : Int)
  | isHeld
  | isHeldRepeat
  | isPressed
  | isSinglePressed
  deriving DecidableEq, Repr

namespace Call

/-- The object after call `c` on `b`, and the value the call returned (`none`
for the `void` member `callback`). -/
def apply (w : Nat) (b : Button) : Call → Button × Option Bool
  | callback read => (b.callback w read, none)
  | isHeld => (b, some b.isHeld)
  | isHeldRepeat => ((b.isHeldRepeat).1, some (b.isHeldRepeat).2)
  | isPressed => (b, some b.isPressed)
  | isSinglePressed => ((b.isSinglePressed).1, some (b.isSinglePressed).2)

/-- The call is a tick of the driving loop. -/
def isTick : Call → Bool
  | callback _ => true
  | _ => false

/-- The call is a query, or a tick that takes the pressed branch of `callback`
(its read is not 1; `digitalRead` yields 0 there). -/
def keepsPressed : Call → Bool
  | callback read => read != 1
  | _ => true

/-- The call is a query, or a tick that reads the released level 1. -/
def keepsReleased : Call → Bool
  | callback read => read == 1
  | _ => true

end Call

/-- The object after the calls `cs` made in order on `b`. -/
def run (w : Nat) (b : Button) : List Call → Button
  | [] => b
  | c :: cs => run w (c.apply w b).1 cs

/-- The calls `cs` made in order on `b`, each paired with the value it returned. -/
def trace (w : Nat) (b : Button) : List Call → List (Call × Option Bool)
  | [] => []
  | c :: cs => (c, (c.apply w b).2) :: trace w (c.apply w b).1 cs

/-- Number of ticks among the calls `cs`. -/
def ticks (cs : List Call) : Nat :=
  (cs.filter Call.isTick).length

/-- Number of calls of `q` among `cs`, made in order on `b`, that returned true. -/
def trues (q : Call) (w : Nat) (b : Button) (cs : List Call) : Nat :=
  ((trace w b cs).filter (fun e => e == (q, some true))).length

/-- The Button `b` is the result of some calls on a freshly constructed Button. -/
def Reachable (w : Nat) (b : Button) : Prop :=
  ∃ pin cs, b = run w (Button.ctor pin) cs

/-- The `n` pressed ticks in a row: `n` calls of `callback` that read 0. -/
def pressedTicks (n : Nat) : List Call :=
  List.replicate n (Call.callback 0)

/-- The `n` released ticks in a row: `n` calls of `callback` that read 1. -/
def releasedTicks (n : Nat) : List Call :=
  List.replicate n (Call.callback 1)

/-- What holds of the counter and of the hold latch in each of the four states
of a Button in use: the counter is at most `MS_DEBOUNCE` in `DEBOUNCE`, between
`MS_DEBOUNCE + 1` and `MS_HOLD` in `PRESSED` (where the hold latch is clear), and
at most `MS_HOLD_REPEAT` in `HELD`. -/
def WellTimed (b : Button) : Prop :=
  b._state = Button.IDLE ∨
  (b._state = Button.DEBOUNCE ∧ b._msCount ≤ Button.MS_DEBOUNCE) ∨
  (b._state = Button.PRESSED ∧ Button.MS_DEBOUNCE + 1 ≤ b._msCount ∧ b._msCount ≤ Button.MS_HOLD ∧
    b._holdBlocked = false) ∨
  (b._state = Button.HELD ∧ b._msCount ≤ Button.MS_HOLD_REPEAT)

/-- Number of pressed ticks in a row since `IDLE` that lead to `b`, counted up
to the tick that enters `HELD`. -/
def pos (b : Button) : Nat :=
  if b._state = Button.IDLE then 0
  else if b._state = Button.HELD then Button.MS_HOLD + 2
  else b._msCount + 1

/-- The call `c` on `b` is a pressed tick on which the `HELD` self-loop timeout
fires: `_state` is `HELD` and `++_msCount > MS_HOLD_REPEAT`. -/
def firesTimeout (w : Nat) (b : Button) : Call → Bool
  | Call.callback read =>
    read != 1 && b._state == Button.HELD &&
      decide (Button.incr w b._msCount > Button.MS_HOLD_REPEAT)
  | _ => false

/-- Number of ticks among `cs`, made in order on `b`, on which the `HELD`
self-loop timeout fires. -/
def firings (w : Nat) (b : Button) : List Call → Nat
  | [] => 0
  | c :: cs => (if firesTimeout w b c then 1 else 0) + firings w (c.apply w b).1 cs

/-- Polling `isHeldRepeat()` once after every tick while the button is held
down: the value returned by the call that follows pressed tick `k` on `b`
(counted from 0), each earlier tick having been followed by one call too. -/
def pollReturn (w : Nat) (b : Button) : Nat → Bool
  | 0 => ((b.callback w 0).isHeldRepeat).2
  | k + 1 => pollReturn w ((b.callback w 0).isHeldRepeat).1 k

/-! ## Basic facts about the embedding -/

theorem incr_le (w n : Nat) : Button.incr w n ≤ n + 1 :=
  Nat.mod_le _ _

theorem incr_eq (w n : Nat) (hw : 16 ≤ w) (hn : n < 65535) : Button.incr w n = n + 1 := by
  have h : 2 ^ 16 ≤ 2 ^ w := Nat.pow_le_pow_right (by decide) hw
  exact Nat.mod_eq_of_lt (by omega)

theorem callback_released (w : Nat) (b : Button) :
    b.callback w 1 = { b with _state := Button.IDLE } := by
  simp [Button.callback]

theorem callback_idle (w : Nat) (b : Button) (r : Int) (hr : r ≠ 1)
    (h : b._state = Button.IDLE) :
    b.callback w r = { b with _state := Button.DEBOUNCE, _msCount := 0 } := by
  simp [Button.callback, hr, h]

theorem callback_debounce (w : Nat) (b : Button) (r : Int) (hr : r ≠ 1)
    (h : b._state = Button.DEBOUNCE) :
    b.callback w r =
      if Button.incr w b._msCount > Button.MS_DEBOUNCE then
        { b with _msCount := Button.incr w b._msCount, _singleBlocked := false,
                 _holdBlocked := false, _state := Button.PRESSED }
      else { b with _msCount := Button.incr w b._msCount } := by
  simp [Button.callback, hr, h, Button.DEBOUNCE, Button.IDLE]

theorem callback_pressed (w : Nat) (b : Button) (r : Int) (hr : r ≠ 1)
    (h : b._state = Button.PRESSED) :
    b.callback w r =
      if Button.incr w b._msCount > Button.MS_HOLD then
        { b with _state := Button.HELD, _msCount := 0 }
      else { b with _msCount := Button.incr w b._msCount } := by
  simp [Button.callback, hr, h, Button.DEBOUNCE, Button.IDLE, Button.PRESSED]

theorem callback_held (w : Nat) (b : Button) (r : Int) (hr : r ≠ 1)
    (h : b._state = Button.HELD) :
    b.callback w r =
      if Button.incr w b._msCount > Button.MS_HOLD_REPEAT then
        { b with _holdBlocked := false, _msCount := 0 }
      else { b with _msCount := Button.incr w b._msCount } := by
  simp [Button.callback, hr, h, Button.DEBOUNCE, Button.IDLE, Button.PRESSED, Button.HELD]

theorem run_append (w : Nat) (b : Button) (cs ds : List Call) :
    run w b (cs ++ ds) = run w (run w b cs) ds := by
  induction cs generalizing b with
  | nil => rfl
  | cons c cs ih => simp [run, ih]

theorem ticks_cons (c : Call) (cs : List Call) :
    ticks (c :: cs) = (if c.isTick then 1 else 0) + ticks cs := by
  cases h : c.isTick
  · simp [ticks, List.filter, h]
  · simp [ticks, List.filter, h]; omega

/-- A query leaves `_state` and `_msCount` as they are. -/
theorem apply_query_frame (w : Nat) (b : Button) (c : Call) (hc : c.isTick = false) :
    (c.apply w b).1._state = b._state ∧ (c.apply w b).1._msCount = b._msCount := by
  cases c with
  | callback r => simp [Call.isTick] at hc
  | isHeld => simp [Call.apply]
  | isPressed => simp [Call.apply]
  | isHeldRepeat =>
    simp only [Call.apply, Button.isHeldRepeat]
    split <;> simp
  | isSinglePressed =>
    simp only [Call.apply, Button.isSinglePressed]
    split <;> simp

/-- While fewer than 52 pressed ticks have been seen since `IDLE`, the machine
is in `IDLE` or `DEBOUNCE`. -/
theorem run_debouncing (w : Nat) (cs : List Call) (b : Button)
    (hcs : ∀ c ∈ cs, c.keepsPressed = true)
    (hb : (b._state = Button.IDLE ∧ ticks cs ≤ 51) ∨
          (b._state = Button.DEBOUNCE ∧ b._msCount + ticks cs ≤ 50)) :
    (run w b cs)._state = Button.IDLE ∨ (run w b cs)._state = Button.DEBOUNCE := by
  induction cs generalizing b with
  | nil => rcases hb with h | h <;> simp [run, h.1]
  | cons c cs ih =>
    have hcs2 : ∀ c ∈ cs, c.keepsPressed = true := fun c hc => hcs c (List.mem_cons_of_mem _ hc)
    have hc := hcs c (List.mem_cons_self _ _)
    rw [ticks_cons] at hb
    simp only [run]
    apply ih _ hcs2
    cases ht : c.isTick with
    | false =>
      obtain ⟨h1, h2⟩ := apply_query_frame w b c ht
      simp only [ht] at hb
      rw [h1, h2]
      simpa using hb
    | true =>
      cases c with
      | callback r =>
        have hr : r ≠ 1 := by simpa [Call.keepsPressed] using hc
        simp only [ht, if_true] at hb
        rcases hb with ⟨h1, h2⟩ | ⟨h1, h2⟩
        · right
          simp [Call.apply, Button.callback, hr, h1]
          omega
        · right
          have hi := incr_le w b._msCount
          have hd : Button.DEBOUNCE ≠ Button.IDLE := by decide
          have hn : ¬ Button.incr w b._msCount > Button.MS_DEBOUNCE := by
            simp only [Button.MS_DEBOUNCE]; omega
          simp only [Call.apply, Button.callback, hr, h1, hd, hn, if_false, if_true, true_and]
          omega
      | _ => simp [Call.isTick] at ht

theorem wellTimed_ctor (pin : Nat) : WellTimed (Button.ctor pin) :=
  Or.inl rfl

theorem wellTimed_apply (w : Nat) (hw : 16 ≤ w) (b : Button) (c : Call) (hb : WellTimed b) :
    WellTimed (c.apply w b).1 := by
  cases c with
  | callback r =>
    simp only [Call.apply, Button.callback]
    have hi := incr_le w b._msCount
    rcases hb with h | ⟨h, hm⟩ | ⟨h, h1, h2, h3⟩ | ⟨h, hm⟩
    all_goals
      have hi2 := incr_eq w b._msCount hw
      simp only [WellTimed, Button.IDLE, Button.DEBOUNCE, Button.PRESSED, Button.HELD, Button.MS_DEBOUNCE,
        Button.MS_HOLD, Button.MS_HOLD_REPEAT] at *
      split_ifs <;> simp_all <;> omega
  | isHeld => exact hb
  | isPressed => exact hb
  | isHeldRepeat =>
    simp only [Call.apply, Button.isHeldRepeat, Button.isHeld]
    simp only [WellTimed, Button.IDLE, Button.DEBOUNCE, Button.PRESSED, Button.HELD, Button.MS_DEBOUNCE,
        Button.MS_HOLD, Button.MS_HOLD_REPEAT] at *
    split_ifs <;> simp_all
  | isSinglePressed =>
    simp only [Call.apply, Button.isSinglePressed, Button.isPressed]
    simp only [WellTimed, Button.IDLE, Button.DEBOUNCE, Button.PRESSED, Button.HELD, Button.MS_DEBOUNCE,
        Button.MS_HOLD, Button.MS_HOLD_REPEAT] at *
    split_ifs <;> simp_all

theorem wellTimed_run (w : Nat) (hw : 16 ≤ w) (cs : List Call) (b : Button) (hb : WellTimed b) :
    WellTimed (run w b cs) := by
  induction cs generalizing b with
  | nil => exact hb
  | cons c cs ih => exact ih _ (wellTimed_apply w hw b c hb)

theorem wellTimed_of_reachable (w : Nat) (hw : 16 ≤ w) (b : Button) (hb : Reachable w b) :
    WellTimed b := by
  obtain ⟨pin, cs, rfl⟩ := hb
  exact wellTimed_run w hw cs _ (wellTimed_ctor pin)

theorem wellTimed_of_idle (b : Button) (hb : b._state = Button.IDLE) : WellTimed b :=
  Or.inl hb

theorem pos_le (b : Button) (hb : WellTimed b) : pos b ≤ Button.MS_HOLD + 2 := by
  rcases hb with h | ⟨h, hm⟩ | ⟨h, h1, h2, h3⟩ | ⟨h, hm⟩ <;>
    simp only [pos, Button.IDLE, Button.DEBOUNCE, Button.PRESSED, Button.HELD, Button.MS_DEBOUNCE,
      Button.MS_HOLD, Button.MS_HOLD_REPEAT] at * <;> simp [h] <;> omega

theorem pos_congr (b c : Button) (hs : c._state = b._state) (hm : c._msCount = b._msCount) :
    pos c = pos b := by
  simp only [pos, hs, hm]

/-- A pressed tick moves a Button in use one step along the press timeline, a
query does not move it. -/
theorem pos_apply (w : Nat) (hw : 16 ≤ w) (b : Button) (c : Call) (hb : WellTimed b)
    (hc : c.keepsPressed = true) :
    pos (c.apply w b).1 = min (pos b + (if c.isTick then 1 else 0)) (Button.MS_HOLD + 2) := by
  have hle := pos_le b hb
  cases ht : c.isTick with
  | false =>
    obtain ⟨h1, h2⟩ := apply_query_frame w b c ht
    rw [pos_congr _ _ h1 h2]
    simp only [Button.MS_HOLD] at *
    simp only [Bool.false_eq_true, if_false]
    omega
  | true =>
    cases c with
    | callback r =>
      have hr : r ≠ 1 := by simpa [Call.keepsPressed] using hc
      have hi2 := incr_eq w b._msCount hw
      simp only [Call.apply, if_true]
      rcases hb with h | ⟨h, hm⟩ | ⟨h, h1, h2, h3⟩ | ⟨h, hm⟩
      · rw [callback_idle w b r hr h]
        simp [pos, h, Button.IDLE, Button.DEBOUNCE, Button.HELD, Button.MS_HOLD]
      · simp only [Button.MS_DEBOUNCE] at hm
        rw [callback_debounce w b r hr h, hi2 (by omega)]
        split_ifs <;>
          simp [pos, h, Button.IDLE, Button.DEBOUNCE, Button.PRESSED, Button.HELD,
            Button.MS_HOLD] <;> omega
      · simp only [Button.MS_HOLD, Button.MS_DEBOUNCE] at h1 h2
        rw [callback_pressed w b r hr h, hi2 (by omega)]
        split_ifs with hh <;>
          simp only [Button.MS_HOLD] at hh <;>
          simp [pos, h, Button.IDLE, Button.DEBOUNCE, Button.PRESSED, Button.HELD,
            Button.MS_HOLD] <;> omega
      · simp only [Button.MS_HOLD_REPEAT] at hm
        rw [callback_held w b r hr h]
        split_ifs <;>
          simp [pos, h, Button.IDLE, Button.DEBOUNCE, Button.PRESSED, Button.HELD,
            Button.MS_HOLD]
    | _ => simp [Call.isTick] at ht

theorem pos_run (w : Nat) (hw : 16 ≤ w) (cs : List Call) (b : Button) (hb : WellTimed b)
    (hcs : ∀ c ∈ cs, c.keepsPressed = true) :
    pos (run w b cs) = min (pos b + ticks cs) (Button.MS_HOLD + 2) := by
  induction cs generalizing b with
  | nil =>
    have hle := pos_le b hb
    simp only [run, ticks, List.filter_nil, List.length_nil, Nat.add_zero]
    omega
  | cons c cs ih =>
    have hc := hcs c (List.mem_cons_self _ _)
    simp only [run]
    rw [ih _ (wellTimed_apply w hw b c hb) (fun c hc => hcs c (List.mem_cons_of_mem _ hc)),
      pos_apply w hw b c hb hc, ticks_cons]
    omega

/-- The state of a Button in use is determined by its place on the press
timeline. -/
theorem state_of_pos (b : Button) (hb : WellTimed b) :
    (pos b = 0 → b._state = Button.IDLE) ∧
    (1 ≤ pos b ∧ pos b ≤ 51 → b._state = Button.DEBOUNCE) ∧
    (52 ≤ pos b ∧ pos b ≤ 1001 → b._state = Button.PRESSED) ∧
    (1002 ≤ pos b → b._state = Button.HELD) := by
  rcases hb with h | ⟨h, hm⟩ | ⟨h, h1, h2, h3⟩ | ⟨h, hm⟩ <;>
    simp only [pos, Button.IDLE, Button.DEBOUNCE, Button.PRESSED, Button.HELD, Button.MS_DEBOUNCE,
      Button.MS_HOLD, Button.MS_HOLD_REPEAT] at * <;> simp [h] <;> omega

theorem keepsPressed_pressedTicks (n : Nat) : ∀ c ∈ pressedTicks n, c.keepsPressed = true := by
  intro c hc
  rw [pressedTicks, List.mem_replicate] at hc
  rw [hc.2]
  rfl

theorem ticks_pressedTicks (n : Nat) : ticks (pressedTicks n) = n := by
  induction n with
  | zero => rfl
  | succ n ih =>
    rw [pressedTicks, List.replicate_succ, ticks_cons]
    rw [pressedTicks] at ih
    simp only [Call.isTick, if_true, ih]
    omega

theorem run_pressedTicks_succ (w : Nat) (b : Button) (n : Nat) :
    run w b (pressedTicks (n + 1)) = (run w b (pressedTicks n)).callback w 0 := by
  rw [pressedTicks, List.replicate_succ', run_append]
  rfl

/-- The place on the press timeline after `n` pressed ticks in a row from `IDLE`. -/
theorem pos_pressedTicks (w : Nat) (hw : 16 ≤ w) (b : Button) (hb : WellTimed b) (n : Nat) :
    pos (run w b (pressedTicks n)) = min (pos b + n) (Button.MS_HOLD + 2) := by
  rw [pos_run w hw _ b hb (keepsPressed_pressedTicks n), ticks_pressedTicks]

theorem pos_of_idle (b : Button) (hb : b._state = Button.IDLE) : pos b = 0 := by
  simp [pos, hb]

theorem isPressed_iff (b : Button) :
    b.isPressed = true ↔ b._state = Button.PRESSED ∨ b._state = Button.HELD := by
  simp [Button.isPressed]

theorem isHeld_iff (b : Button) : b.isHeld = true ↔ b._state = Button.HELD := by
  simp [Button.isHeld]

/-! ## Debouncing -/

/-- C1 (no spurious press): from any Button in `IDLE`, whatever its counter and
latches, after calls `cs` that are pressed ticks and queries in any order, with
fewer than `MS_DEBOUNCE + 1` ticks among them, the state is neither `PRESSED` nor
`HELD`, `isPressed()` is false, and a tick that then reads the released level
leaves the state `IDLE`. Every tick of such a run ends a shorter run of the same
kind, so this holds after each of the ticks. -/
theorem no_spurious_press (w : Nat) (b : Button) (cs : List Call)
    (hb : b._state = Button.IDLE)
    (hcs : ∀ c ∈ cs, c.keepsPressed = true)
    (hn : ticks cs < Button.MS_DEBOUNCE + 1) :
    (run w b cs)._state ≠ Button.PRESSED ∧ (run w b cs)._state ≠ Button.HELD ∧
    (run w b cs).isPressed = false ∧ ((run w b cs).callback w 1)._state = Button.IDLE := by
  have h := run_debouncing w cs b hcs (Or.inl ⟨hb, by simp only [Button.MS_DEBOUNCE] at hn; omega⟩)
  refine ⟨?_, ?_, ?_, ?_⟩
  · rcases h with h | h <;> rw [h] <;> decide
  · rcases h with h | h <;> rw [h] <;> decide
  · rcases h with h | h <;> simp [Button.isPressed, h, Button.IDLE, Button.DEBOUNCE,
      Button.PRESSED, Button.HELD]
  · rw [callback_released]

/-- Witness of C1: two pressed ticks with queries around them on a fresh Button. -/
theorem no_spurious_press_witness :
    (Button.ctor 3)._state = Button.IDLE ∧
    (run 16 (Button.ctor 3)
      [Call.callback 0, Call.isSinglePressed, Call.callback 0, Call.isHeldRepeat])._state
        ≠ Button.PRESSED :=
  ⟨rfl, (no_spurious_press 16 (Button.ctor 3)
      [Call.callback 0, Call.isSinglePressed, Call.callback 0, Call.isHeldRepeat]
      rfl (by decide) (by decide)).1⟩

/-- Refutation of C2 as stated: on a fresh Button the 51st pressed tick in a row
leaves the state `DEBOUNCE`, not `PRESSED`, and `isPressed()` false. -/
theorem pressed_on_tick_51_fails :
    (run 16 (Button.ctor 0) (pressedTicks 51))._state = Button.DEBOUNCE ∧
    (run 16 (Button.ctor 0) (pressedTicks 51))._state ≠ Button.PRESSED ∧
    (run 16 (Button.ctor 0) (pressedTicks 51)).isPressed = false := by
  have hp := pos_pressedTicks 16 (by decide) (Button.ctor 0) (wellTimed_ctor 0) 51
  have hs := (state_of_pos _ (wellTimed_run 16 (by decide) (pressedTicks 51) _
    (wellTimed_ctor 0))).2.1
  rw [hp] at hs
  have h := hs (by decide)
  refine ⟨h, ?_, ?_⟩
  · rw [h]; decide
  · simp [Button.isPressed, h, Button.DEBOUNCE, Button.PRESSED, Button.HELD]

/-- C2, amended: from any Button in `IDLE`, with an `unsigned int` of at least
16 bits, the press is registered on pressed tick `MS_DEBOUNCE + 2` = 52: after
`MS_DEBOUNCE + 1` pressed ticks in a row the state is `DEBOUNCE`, not `PRESSED`,
and after `MS_DEBOUNCE + 2` the state is `PRESSED` and `isPressed()` is true. -/
theorem pressed_on_tick_52 (w : Nat) (hw : 16 ≤ w) (b : Button)
    (hb : b._state = Button.IDLE) :
    (run w b (pressedTicks (Button.MS_DEBOUNCE + 1)))._state = Button.DEBOUNCE ∧
    (run w b (pressedTicks (Button.MS_DEBOUNCE + 1)))._state ≠ Button.PRESSED ∧
    (run w b (pressedTicks (Button.MS_DEBOUNCE + 2)))._state = Button.PRESSED ∧
    (run w b (pressedTicks (Button.MS_DEBOUNCE + 2))).isPressed = true := by
  have hwt := wellTimed_of_idle b hb
  have hp1 := pos_pressedTicks w hw b hwt (Button.MS_DEBOUNCE + 1)
  have hp2 := pos_pressedTicks w hw b hwt (Button.MS_DEBOUNCE + 2)
  have hs1 := (state_of_pos _ (wellTimed_run w hw (pressedTicks (Button.MS_DEBOUNCE + 1)) _ hwt)).2.1
  have hs2 := (state_of_pos _ (wellTimed_run w hw (pressedTicks (Button.MS_DEBOUNCE + 2)) _ hwt)).2.2.1
  rw [pos_of_idle b hb] at hp1 hp2
  simp only [Button.MS_DEBOUNCE, Button.MS_HOLD] at hp1 hp2 hs1 hs2 ⊢
  have h1 := hs1 (by omega)
  have h2 := hs2 (by omega)
  refine ⟨h1, ?_, h2, ?_⟩
  · rw [h1]; decide
  · rw [isPressed_iff]; exact Or.inl h2

/-- Witness of the amended C2 on a fresh Button with a 16-bit `unsigned int`. -/
theorem pressed_on_tick_52_witness :
    16 ≤ 16 ∧ (Button.ctor 0)._state = Button.IDLE ∧
    (run 16 (Button.ctor 0) (pressedTicks (Button.MS_DEBOUNCE + 2)))._state = Button.PRESSED :=
  ⟨by decide, rfl, (pressed_on_tick_52 16 (by decide) (Button.ctor 0) rfl).2.2.1⟩

/-- C3 (release snaps to `IDLE`): on every Button, whatever its state, counter
and latches, a tick that reads the released level 1 sets the state to `IDLE`, so
that `isPressed()` and `isHeld()` are false after it, and changes nothing else:
the counter, both latches and the pin are as before. -/
theorem release_snaps_to_idle (w : Nat) (b : Button) :
    (b.callback w 1)._state = Button.IDLE ∧
    (b.callback w 1).isPressed = false ∧ (b.callback w 1).isHeld = false ∧
    (b.callback w 1)._msCount = b._msCount ∧
    (b.callback w 1)._singleBlocked = b._singleBlocked ∧
    (b.callback w 1)._holdBlocked = b._holdBlocked ∧
    (b.callback w 1)._pin = b._pin := by
  rw [callback_released]
  simp [Button.isPressed, Button.isHeld, Button.IDLE, Button.PRESSED, Button.HELD]

/-! ## The single-press event -/

theorem trues_nil (q : Call) (w : Nat) (b : Button) : trues q w b [] = 0 := rfl

theorem trues_cons (q : Call) (w : Nat) (b : Button) (c : Call) (cs : List Call) :
    trues q w b (c :: cs) =
      (if c = q ∧ (c.apply w b).2 = some true then 1 else 0) + trues q w (c.apply w b).1 cs := by
  simp only [trues, trace, List.filter_cons]
  by_cases h : c = q ∧ (c.apply w b).2 = some true
  · have h2 : ((c, (c.apply w b).2) == (q, some true)) = true := by
      rw [beq_iff_eq]
      exact Prod.ext h.1 h.2
    rw [if_pos h2, if_pos h, List.length_cons]
    omega
  · have h2 : ¬ ((c, (c.apply w b).2) == (q, some true)) = true := by
      rw [beq_iff_eq]
      intro he
      exact h ⟨congrArg Prod.fst he, congrArg Prod.snd he⟩
    rw [if_neg h2, if_neg h]
    omega

theorem isSinglePressed_true (b : Button) (hp : b.isPressed = true)
    (hs : b._singleBlocked = false) :
    b.isSinglePressed = ({ b with _singleBlocked := true }, true) := by
  simp [Button.isSinglePressed, hp, hs]

theorem isSinglePressed_false (b : Button)
    (h : ¬ (b.isPressed = true ∧ b._singleBlocked = false)) :
    b.isSinglePressed = (b, false) := by
  simp only [Button.isSinglePressed]
  split_ifs with h2
  · exact absurd (by simpa [and_comm] using h2) h
  · rfl

theorem isHeldRepeat_true (b : Button) (hp : b.isHeld = true)
    (hs : b._holdBlocked = false) :
    b.isHeldRepeat = ({ b with _holdBlocked := true }, true) := by
  simp [Button.isHeldRepeat, hp, hs]

theorem isHeldRepeat_false (b : Button)
    (h : ¬ (b.isHeld = true ∧ b._holdBlocked = false)) :
    b.isHeldRepeat = (b, false) := by
  simp only [Button.isHeldRepeat]
  split_ifs with h2
  · exact absurd (by simpa [and_comm] using h2) h
  · rfl

/-- A query other than `isSinglePressed`, or a pressed tick on a Button that
`isPressed()`, keeps `isPressed()` and the single-press latch. -/
theorem pressed_frame (w : Nat) (b : Button) (c : Call) (hc : c.keepsPressed = true)
    (hb : b.isPressed = true) :
    (c.apply w b).1.isPressed = true ∧
    (c ≠ Call.isSinglePressed → (c.apply w b).1._singleBlocked = b._singleBlocked) ∧
    (b._singleBlocked = true → (c.apply w b).1._singleBlocked = true) := by
  rw [isPressed_iff] at hb
  cases c with
  | callback r =>
    have hr : r ≠ 1 := by simpa [Call.keepsPressed] using hc
    simp only [Call.apply]
    rcases hb with h | h
    · rw [callback_pressed w b r hr h]
      split_ifs <;> simp [Button.isPressed, h]
    · rw [callback_held w b r hr h]
      split_ifs <;> simp [Button.isPressed, h]
  | isHeld => simp [Call.apply, isPressed_iff, hb]
  | isPressed => simp [Call.apply, isPressed_iff, hb]
  | isHeldRepeat =>
    simp only [Call.apply, Button.isHeldRepeat]
    split_ifs <;> simp [isPressed_iff, hb]
  | isSinglePressed =>
    simp only [Call.apply, Button.isSinglePressed]
    split_ifs <;> simp [isPressed_iff, hb]

/-- Once the single-press event of a press is delivered, no call delivers it
again while the button stays pressed. -/
theorem trues_single_blocked (w : Nat) (cs : List Call) (b : Button)
    (hcs : ∀ c ∈ cs, c.keepsPressed = true)
    (hp : b.isPressed = true) (hs : b._singleBlocked = true) :
    trues Call.isSinglePressed w b cs = 0 := by
  induction cs generalizing b with
  | nil => rfl
  | cons c cs ih =>
    have hc := hcs c (List.mem_cons_self _ _)
    obtain ⟨h1, -, h3⟩ := pressed_frame w b c hc hp
    rw [trues_cons, ih _ (fun c hc => hcs c (List.mem_cons_of_mem _ hc)) h1 (h3 hs)]
    have : ¬ (c = Call.isSinglePressed ∧ (c.apply w b).2 = some true) := by
      rintro ⟨rfl, h⟩
      simp [Call.apply, isSinglePressed_false b (by simp [hs])] at h
    simp [this]

/-- C4 (at most one single-press event per continuous press): on every Button,
reachable from a fresh one or not, over calls `cs` that are pressed ticks and
queries in any order (no released tick), `isSinglePressed()` returns true at
most once; and when after them `isPressed()` is true and the event is not yet
delivered, two calls in a row return true, then false. -/
theorem single_press_at_most_once (w : Nat) (b : Button) (cs : List Call)
    (hcs : ∀ c ∈ cs, c.keepsPressed = true) :
    trues Call.isSinglePressed w b cs ≤ 1 ∧
    ((run w b cs).isPressed = true → (run w b cs)._singleBlocked = false →
      ((run w b cs).isSinglePressed).2 = true ∧
      (((run w b cs).isSinglePressed).1.isSinglePressed).2 = false) := by
  constructor
  · induction cs generalizing b with
    | nil => simp [trues_nil]
    | cons c cs ih =>
      have hcs2 : ∀ c ∈ cs, c.keepsPressed = true := fun c hc => hcs c (List.mem_cons_of_mem _ hc)
      rw [trues_cons]
      by_cases h : c = Call.isSinglePressed ∧ (c.apply w b).2 = some true
      · obtain ⟨rfl, h2⟩ := h
        have h3 : b.isPressed = true ∧ b._singleBlocked = false := by
          by_contra hne
          simp [Call.apply, isSinglePressed_false b hne] at h2
        have he : (Call.isSinglePressed.apply w b).1 = { b with _singleBlocked := true } := by
          simp only [Call.apply, isSinglePressed_true b h3.1 h3.2]
        have hz := trues_single_blocked w cs (Call.isSinglePressed.apply w b).1 hcs2
          (by rw [he]; exact h3.1) (by rw [he])
        rw [hz]
        split_ifs <;> omega
      · have := ih (c.apply w b).1 hcs2
        simp only [h, if_false]
        omega
  · intro hp hs
    rw [isSinglePressed_true _ hp hs]
    exact ⟨rfl, by rw [isSinglePressed_false _ (by simp)]⟩

/-- While the button stays pressed and `isSinglePressed` is not called, a Button
that `isPressed()` keeps doing so and keeps its single-press latch. -/
theorem run_pressed_frame (w : Nat) (cs : List Call) (b : Button)
    (hcs : ∀ c ∈ cs, c.keepsPressed = true ∧ c ≠ Call.isSinglePressed)
    (hp : b.isPressed = true) :
    (run w b cs).isPressed = true ∧ (run w b cs)._singleBlocked = b._singleBlocked := by
  induction cs generalizing b with
  | nil => exact ⟨hp, rfl⟩
  | cons c cs ih =>
    obtain ⟨hc1, hc2⟩ := hcs c (List.mem_cons_self _ _)
    obtain ⟨h1, h2, -⟩ := pressed_frame w b c hc1 hp
    obtain ⟨h3, h4⟩ := ih _ (fun c hc => hcs c (List.mem_cons_of_mem _ hc)) h1
    exact ⟨h3, by rw [run, h4, h2 hc2]⟩

/-- The tick that moves `DEBOUNCE` to `PRESSED` read the pressed level and
cleared both latches. -/
theorem enter_pressed (w : Nat) (b : Button) (r : Int)
    (hb : b._state = Button.DEBOUNCE) (hgo : (b.callback w r)._state = Button.PRESSED) :
    r ≠ 1 ∧ Button.incr w b._msCount > Button.MS_DEBOUNCE ∧
    b.callback w r = { b with _msCount := Button.incr w b._msCount, _singleBlocked := false,
                              _holdBlocked := false, _state := Button.PRESSED } := by
  have hr : r ≠ 1 := by
    rintro rfl
    rw [callback_released] at hgo
    exact absurd hgo (show Button.IDLE ≠ Button.PRESSED by decide)
  rw [callback_debounce w b r hr hb] at hgo ⊢
  split_ifs at hgo ⊢ with h
  · exact ⟨hr, h, rfl⟩
  · exact absurd (hb.symm.trans hgo) (by decide)

/-- The tick that moves `DEBOUNCE` to `PRESSED` leaves both latches clear. -/
theorem new_press_latches (w : Nat) (b : Button) (r : Int)
    (hb : b._state = Button.DEBOUNCE) (hgo : (b.callback w r)._state = Button.PRESSED) :
    (b.callback w r)._singleBlocked = false ∧ (b.callback w r)._holdBlocked = false := by
  obtain ⟨-, -, he⟩ := enter_pressed w b r hb hgo
  rw [he]
  exact ⟨rfl, rfl⟩

/-- C5 (every new press delivers its single-press event): on every Button in
`DEBOUNCE`, reachable or not, whatever its latches (a former press may have
consumed them), the tick that moves it to `PRESSED` leaves `_singleBlocked` and
`_holdBlocked` false; and after any further calls `cs` that are pressed ticks and
queries other than `isSinglePressed`, the button is still pressed (`PRESSED` or
`HELD`) and the first `isSinglePressed()` call returns true. -/
theorem new_press_delivers_single (w : Nat) (b : Button) (r : Int) (cs : List Call)
    (hb : b._state = Button.DEBOUNCE)
    (hgo : (b.callback w r)._state = Button.PRESSED)
    (hcs : ∀ c ∈ cs, c.keepsPressed = true ∧ c ≠ Call.isSinglePressed) :
    (b.callback w r)._singleBlocked = false ∧ (b.callback w r)._holdBlocked = false ∧
    ((run w (b.callback w r) cs)._state = Button.PRESSED ∨
      (run w (b.callback w r) cs)._state = Button.HELD) ∧
    ((run w (b.callback w r) cs).isSinglePressed).2 = true := by
  obtain ⟨-, -, he⟩ := enter_pressed w b r hb hgo
  have hs : (b.callback w r)._singleBlocked = false := by rw [he]
  have hh : (b.callback w r)._holdBlocked = false := by rw [he]
  have hp : (b.callback w r).isPressed = true := by rw [isPressed_iff]; exact Or.inl hgo
  obtain ⟨h1, h2⟩ := run_pressed_frame w cs _ hcs hp
  refine ⟨hs, hh, (isPressed_iff _).1 h1, ?_⟩
  rw [isSinglePressed_true _ h1 (by rw [h2, hs])]

/-- Witness of C5: a Button at the end of its debounce whose former press had
both events consumed; the new press is polled after a tick and two other queries. -/
theorem new_press_delivers_single_witness :
    ((run 16 (Button.callback 16
        { _pin := 2, _msCount := 50, _state := Button.DEBOUNCE, _singleBlocked := true,
          _holdBlocked := true } 0)
      [Call.callback 0, Call.isHeldRepeat, Call.isPressed]).isSinglePressed).2 = true :=
  (new_press_delivers_single 16
    { _pin := 2, _msCount := 50, _state := Button.DEBOUNCE, _singleBlocked := true,
      _holdBlocked := true } 0
    [Call.callback 0, Call.isHeldRepeat, Call.isPressed] rfl (by decide) (by decide)).2.2.2

/-! ## The hold threshold -/

/-- The state after calls that keep the button pressed, from a Button in use, as
a function of the place on the press timeline it started from. -/
theorem state_run (w : Nat) (hw : 16 ≤ w) (b : Button) (hb : WellTimed b) (cs : List Call)
    (hcs : ∀ c ∈ cs, c.keepsPressed = true) :
    (1 ≤ pos b + ticks cs ∧ pos b + ticks cs ≤ 51 → (run w b cs)._state = Button.DEBOUNCE) ∧
    (52 ≤ pos b + ticks cs ∧ pos b + ticks cs ≤ 1001 → (run w b cs)._state = Button.PRESSED) ∧
    (1002 ≤ pos b + ticks cs → (run w b cs)._state = Button.HELD) := by
  have hp := pos_run w hw cs b hb hcs
  obtain ⟨-, h1, h2, h3⟩ := state_of_pos _ (wellTimed_run w hw cs b hb)
  rw [hp] at h1 h2 h3
  simp only [Button.MS_HOLD] at h1 h2 h3
  exact ⟨fun h => h1 (by omega), fun h => h2 (by omega), fun h => h3 (by omega)⟩

/-- The tick that enters `PRESSED` on a Button in use leaves the counter at
`MS_DEBOUNCE + 1`: it is not set back to 0. -/
theorem pos_enter_pressed (w : Nat) (hw : 16 ≤ w) (b : Button) (r : Int) (hwt : WellTimed b)
    (hb : b._state = Button.DEBOUNCE) (hgo : (b.callback w r)._state = Button.PRESSED) :
    WellTimed (b.callback w r) ∧ (b.callback w r)._msCount = Button.MS_DEBOUNCE + 1 ∧
    pos (b.callback w r) = Button.MS_DEBOUNCE + 2 := by
  have hwt2 : WellTimed (b.callback w r) := wellTimed_apply w hw b (Call.callback r) hwt
  obtain ⟨-, hgt, he⟩ := enter_pressed w b r hb hgo
  have hle := incr_le w b._msCount
  have hm : b._msCount ≤ Button.MS_DEBOUNCE := by
    rcases hwt with h | ⟨-, hm⟩ | ⟨h, -⟩ | ⟨h, -⟩
    · exact absurd (hb.symm.trans h) (by decide)
    · exact hm
    · exact absurd (hb.symm.trans h) (by decide)
    · exact absurd (hb.symm.trans h) (by decide)
  have hc : (b.callback w r)._msCount = Button.MS_DEBOUNCE + 1 := by
    rw [he]
    simp only [Button.MS_DEBOUNCE] at *
    omega
  refine ⟨hwt2, hc, ?_⟩
  simp [pos, hgo, hc, Button.PRESSED, Button.IDLE, Button.HELD]

/-- Refutation of C6 as stated: a fresh Button is in `DEBOUNCE` after 51 pressed
ticks, tick 52 enters `PRESSED`, and 950 further pressed ticks, not 1001, bring
it to `HELD`: the state after further tick 950 is not `PRESSED`. -/
theorem held_after_1001_fails :
    (run 16 (Button.ctor 0) (pressedTicks 51))._state = Button.DEBOUNCE ∧
    ((run 16 (Button.ctor 0) (pressedTicks 51)).callback 16 0)._state = Button.PRESSED ∧
    (run 16 ((run 16 (Button.ctor 0) (pressedTicks 51)).callback 16 0)
      (pressedTicks 950))._state = Button.HELD ∧
    (run 16 ((run 16 (Button.ctor 0) (pressedTicks 51)).callback 16 0)
      (pressedTicks 950))._state ≠ Button.PRESSED := by
  have hw : 16 ≤ 16 := Nat.le_refl _
  have h0 := wellTimed_ctor 0
  have hp : pos (Button.ctor 0) = 0 := rfl
  have h1 := (state_run 16 hw _ h0 (pressedTicks 51) (keepsPressed_pressedTicks 51)).1
  have h2 := (state_run 16 hw _ h0 (pressedTicks 52) (keepsPressed_pressedTicks 52)).2.1
  rw [hp, ticks_pressedTicks] at h1 h2
  have h1 := h1 (by decide)
  have h2 := h2 (by decide)
  rw [run_pressedTicks_succ] at h2
  obtain ⟨h3, -, h4⟩ := pos_enter_pressed 16 hw _ 0 (wellTimed_run 16 hw _ _ h0) h1 h2
  have h5 := (state_run 16 hw _ h3 (pressedTicks 950) (keepsPressed_pressedTicks 950)).2.2
  rw [h4, ticks_pressedTicks] at h5
  have h6 := h5 (by decide)
  exact ⟨h1, h2, h6, by rw [h6]; decide⟩

/-- C6, amended: on a Button reachable from a fresh one (`unsigned int` of at
least 16 bits), the tick that enters `PRESSED` from `DEBOUNCE` leaves the counter
at `MS_DEBOUNCE + 1`, and `HELD` is entered `MS_HOLD - MS_DEBOUNCE` = 950 pressed
ticks later: over further calls `cs` that are pressed ticks and queries, the state
is `PRESSED` and `isHeld()` false while fewer than 950 ticks are among them, and
from the 950th tick on the state is `HELD` and `isHeld()`, `isPressed()` are true. -/
theorem held_950_ticks_after_pressed (w : Nat) (hw : 16 ≤ w) (b : Button) (r : Int)
    (cs : List Call)
    (hreach : Reachable w b)
    (hb : b._state = Button.DEBOUNCE)
    (hgo : (b.callback w r)._state = Button.PRESSED)
    (hcs : ∀ c ∈ cs, c.keepsPressed = true) :
    (b.callback w r)._msCount = Button.MS_DEBOUNCE + 1 ∧
    (ticks cs < Button.MS_HOLD - Button.MS_DEBOUNCE →
      (run w (b.callback w r) cs)._state = Button.PRESSED ∧
      (run w (b.callback w r) cs).isHeld = false) ∧
    (Button.MS_HOLD - Button.MS_DEBOUNCE ≤ ticks cs →
      (run w (b.callback w r) cs)._state = Button.HELD ∧
      (run w (b.callback w r) cs).isHeld = true ∧
      (run w (b.callback w r) cs).isPressed = true) := by
  obtain ⟨h3, hc, h4⟩ := pos_enter_pressed w hw b r (wellTimed_of_reachable w hw b hreach) hb hgo
  obtain ⟨-, h5, h6⟩ := state_run w hw _ h3 cs hcs
  rw [h4] at h5 h6
  simp only [Button.MS_HOLD, Button.MS_DEBOUNCE] at h5 h6 ⊢
  refine ⟨hc, fun h => ?_, fun h => ?_⟩
  · have := h5 (by omega)
    exact ⟨this, by simp [Button.isHeld, this, Button.PRESSED, Button.HELD]⟩
  · have := h6 (by omega)
    exact ⟨this, by simp [Button.isHeld, this], by simp [Button.isPressed, this]⟩

set_option maxRecDepth 4000 in
/-- A fresh Button after 51 pressed ticks in a row, by evaluation. -/
theorem end_of_debounce_fresh :
    run 16 (Button.ctor 0) (pressedTicks 51) =
      { _pin := 0, _msCount := 50, _state := Button.DEBOUNCE, _singleBlocked := false,
        _holdBlocked := false } := by
  rfl

/-- Witness of the amended C6: the Button that a fresh one becomes by 51 pressed
ticks, its 52nd tick, and 950 further pressed ticks. -/
theorem held_950_ticks_after_pressed_witness :
    (run 16 (Button.callback 16
        { _pin := 0, _msCount := 50, _state := Button.DEBOUNCE, _singleBlocked := false,
          _holdBlocked := false } 0)
      (pressedTicks 950))._state = Button.HELD :=
  ((held_950_ticks_after_pressed 16 (by decide)
    { _pin := 0, _msCount := 50, _state := Button.DEBOUNCE, _singleBlocked := false,
      _holdBlocked := false } 0
    (pressedTicks 950) ⟨0, pressedTicks 51, end_of_debounce_fresh.symm⟩ rfl (by decide)
    (keepsPressed_pressedTicks 950)).2.2
      (by rw [ticks_pressedTicks]; decide)).1

/-! ## The hold-repeat event -/

/-- A call that keeps the button pressed and on which the timeout does not fire
leaves a Button that is `HELD` with its hold latch set as it is in both respects. -/
theorem held_blocked_frame (w : Nat) (b : Button) (c : Call) (hc : c.keepsPressed = true)
    (hf : firesTimeout w b c = false)
    (hb : b._state = Button.HELD) (hl : b._holdBlocked = true) :
    (c.apply w b).1._state = Button.HELD ∧ (c.apply w b).1._holdBlocked = true := by
  cases c with
  | callback r =>
    have hr : r ≠ 1 := by simpa [Call.keepsPressed] using hc
    have hn : ¬ Button.incr w b._msCount > Button.MS_HOLD_REPEAT := by
      simpa [firesTimeout, hr, hb] using hf
    simp only [Call.apply]
    rw [callback_held w b r hr hb, if_neg hn]
    exact ⟨hb, hl⟩
  | isHeld => exact ⟨hb, hl⟩
  | isPressed => exact ⟨hb, hl⟩
  | isHeldRepeat =>
    simp only [Call.apply, isHeldRepeat_false b (by simp [hl])]
    exact ⟨hb, hl⟩
  | isSinglePressed =>
    simp only [Call.apply, Button.isSinglePressed]
    split_ifs <;> exact ⟨hb, hl⟩

/-- After a hold-repeat event is delivered, no call delivers one before the
timeout fires, while the button stays pressed. -/
theorem trues_hold_blocked (w : Nat) (cs : List Call) (b : Button)
    (hcs : ∀ c ∈ cs, c.keepsPressed = true) (hf : firings w b cs = 0)
    (hb : b._state = Button.HELD) (hl : b._holdBlocked = true) :
    trues Call.isHeldRepeat w b cs = 0 := by
  induction cs generalizing b with
  | nil => rfl
  | cons c cs ih =>
    have hc := hcs c (List.mem_cons_self _ _)
    simp only [firings] at hf
    have hf1 : firesTimeout w b c = false := by
      cases h : firesTimeout w b c
      · rfl
      · simp [h] at hf
    have hf2 : firings w (c.apply w b).1 cs = 0 := by omega
    obtain ⟨h1, h2⟩ := held_blocked_frame w b c hc hf1 hb hl
    rw [trues_cons, ih _ (fun c hc => hcs c (List.mem_cons_of_mem _ hc)) hf2 h1 h2]
    have : ¬ (c = Call.isHeldRepeat ∧ (c.apply w b).2 = some true) := by
      rintro ⟨rfl, h⟩
      simp [Call.apply, isHeldRepeat_false b (by simp [hl])] at h
    simp [this]

/-- The Button after an `isHeldRepeat()` call that returned true. -/
theorem isHeldRepeat_returned_true (b : Button) (h : (b.isHeldRepeat).2 = true) :
    (b.isHeldRepeat).1._state = Button.HELD ∧ (b.isHeldRepeat).1._holdBlocked = true := by
  have h3 : b.isHeld = true ∧ b._holdBlocked = false := by
    by_contra hne
    simp [isHeldRepeat_false b hne] at h
  rw [isHeldRepeat_true b h3.1 h3.2]
  exact ⟨(isHeld_iff b).1 h3.1, rfl⟩

/-- Between two timeouts, `isHeldRepeat()` returns true at most once while the
button stays pressed. -/
theorem trues_hold_le_one (w : Nat) (cs : List Call) (b : Button)
    (hcs : ∀ c ∈ cs, c.keepsPressed = true) (hf : firings w b cs = 0) :
    trues Call.isHeldRepeat w b cs ≤ 1 := by
  induction cs generalizing b with
  | nil => simp [trues_nil]
  | cons c cs ih =>
    have hcs2 : ∀ c ∈ cs, c.keepsPressed = true := fun c hc => hcs c (List.mem_cons_of_mem _ hc)
    simp only [firings] at hf
    have hf2 : firings w (c.apply w b).1 cs = 0 := by omega
    rw [trues_cons]
    by_cases h : c = Call.isHeldRepeat ∧ (c.apply w b).2 = some true
    · obtain ⟨rfl, h2⟩ := h
      have h3 : (b.isHeldRepeat).2 = true := by simpa [Call.apply] using h2
      obtain ⟨h4, h5⟩ := isHeldRepeat_returned_true b h3
      have hz := trues_hold_blocked w cs (Call.isHeldRepeat.apply w b).1 hcs2 hf2 h4 h5
      rw [hz]
      split_ifs <;> omega
    · have := ih (c.apply w b).1 hcs2 hf2
      simp only [h, if_false]
      omega

/-- While the button stays pressed and `isHeldRepeat` is not called, a Button
that is `HELD` with its hold latch clear stays so. -/
theorem run_held_clear (w : Nat) (cs : List Call) (b : Button)
    (hcs : ∀ c ∈ cs, c.keepsPressed = true ∧ c ≠ Call.isHeldRepeat)
    (hb : b._state = Button.HELD) (hl : b._holdBlocked = false) :
    (run w b cs)._state = Button.HELD ∧ (run w b cs)._holdBlocked = false := by
  induction cs generalizing b with
  | nil => exact ⟨hb, hl⟩
  | cons c cs ih =>
    obtain ⟨hc1, hc2⟩ := hcs c (List.mem_cons_self _ _)
    apply ih _ (fun c hc => hcs c (List.mem_cons_of_mem _ hc))
    · cases c with
      | callback r =>
        have hr : r ≠ 1 := by simpa [Call.keepsPressed] using hc1
        simp only [Call.apply]
        rw [callback_held w b r hr hb]
        split_ifs <;> exact hb
      | isHeld => exact hb
      | isPressed => exact hb
      | isHeldRepeat => exact absurd rfl hc2
      | isSinglePressed =>
        simp only [Call.apply, Button.isSinglePressed]
        split_ifs <;> exact hb
    · cases c with
      | callback r =>
        have hr : r ≠ 1 := by simpa [Call.keepsPressed] using hc1
        simp only [Call.apply]
        rw [callback_held w b r hr hb]
        split_ifs
        · rfl
        · exact hl
      | isHeld => exact hl
      | isPressed => exact hl
      | isHeldRepeat => exact absurd rfl hc2
      | isSinglePressed =>
        simp only [Call.apply, Button.isSinglePressed]
        split_ifs <;> exact hl

/-- The tick that enters `HELD` on a Button in use: it comes from `PRESSED`, sets
the counter to 0 and finds the hold latch clear. -/
theorem enter_held (w : Nat) (b : Button) (r : Int) (hwt : WellTimed b)
    (hb : b._state ≠ Button.HELD) (hgo : (b.callback w r)._state = Button.HELD) :
    b._state = Button.PRESSED ∧ r ≠ 1 ∧ (b.callback w r)._msCount = 0 ∧
    (b.callback w r)._holdBlocked = false := by
  have hr : r ≠ 1 := by
    rintro rfl
    rw [callback_released] at hgo
    exact absurd hgo (show Button.IDLE ≠ Button.HELD by decide)
  rcases hwt with h | ⟨h, -⟩ | ⟨h, -, -, hl⟩ | ⟨h, -⟩
  · rw [callback_idle w b r hr h] at hgo
    exact absurd hgo (show Button.DEBOUNCE ≠ Button.HELD by decide)
  · rw [callback_debounce w b r hr h] at hgo
    split_ifs at hgo
    · exact absurd hgo (show Button.PRESSED ≠ Button.HELD by decide)
    · exact absurd (h.symm.trans hgo) (by decide)
  · rw [callback_pressed w b r hr h] at hgo ⊢
    split_ifs at hgo ⊢
    · exact ⟨h, hr, rfl, hl⟩
    · exact absurd (h.symm.trans hgo) (by decide)
  · exact absurd h hb

/-- The state of a fresh Button after `n` pressed ticks in a row. -/
theorem fresh_state (w : Nat) (hw : 16 ≤ w) (pin n : Nat) :
    (1 ≤ n ∧ n ≤ 51 → (run w (Button.ctor pin) (pressedTicks n))._state = Button.DEBOUNCE) ∧
    (52 ≤ n ∧ n ≤ 1001 → (run w (Button.ctor pin) (pressedTicks n))._state = Button.PRESSED) ∧
    (1002 ≤ n → (run w (Button.ctor pin) (pressedTicks n))._state = Button.HELD) := by
  have h := state_run w hw _ (wellTimed_ctor pin) (pressedTicks n) (keepsPressed_pressedTicks n)
  have hp : pos (Button.ctor pin) = 0 := rfl
  rw [hp, ticks_pressedTicks, Nat.zero_add] at h
  exact h

/-- C7, amended (hold-repeat edge semantics while the button stays held down,
that is as long as no tick reads the released level). First: on a Button
reachable from a fresh one (`unsigned int` of at least 16 bits),
after the tick that enters `HELD` and any further pressed ticks and other
queries, the first `isHeldRepeat()` call returns true. Second: on every Button,
after an `isHeldRepeat()` call that returned true, no `isHeldRepeat()` call
returns true over calls `ds` that are pressed ticks and queries none of which is
a tick on which the `HELD` self-loop timeout fires. Third: over any such calls
`ds`, that is between two timeouts, it returns true at most once. -/
theorem hold_repeat_edge (w : Nat) :
    (∀ (b : Button) (r : Int) (cs : List Call), 16 ≤ w → Reachable w b →
      b._state ≠ Button.HELD → (b.callback w r)._state = Button.HELD →
      (∀ c ∈ cs, c.keepsPressed = true ∧ c ≠ Call.isHeldRepeat) →
      ((run w (b.callback w r) cs).isHeldRepeat).2 = true) ∧
    (∀ (b : Button) (ds : List Call), (b.isHeldRepeat).2 = true →
      (∀ c ∈ ds, c.keepsPressed = true) → firings w (b.isHeldRepeat).1 ds = 0 →
      trues Call.isHeldRepeat w (b.isHeldRepeat).1 ds = 0) ∧
    (∀ (b : Button) (ds : List Call),
      (∀ c ∈ ds, c.keepsPressed = true) → firings w b ds = 0 →
      trues Call.isHeldRepeat w b ds ≤ 1) := by
  refine ⟨?_, ?_, ?_⟩
  · intro b r cs hw hreach hb hgo hcs
    obtain ⟨-, -, -, hl⟩ := enter_held w b r (wellTimed_of_reachable w hw b hreach) hb hgo
    obtain ⟨h1, h2⟩ := run_held_clear w cs _ hcs hgo hl
    rw [isHeldRepeat_true _ ((isHeld_iff _).2 h1) h2]
  · intro b ds h hds hf
    obtain ⟨h1, h2⟩ := isHeldRepeat_returned_true b h
    exact trues_hold_blocked w ds _ hds hf h1 h2
  · intro b ds hds hf
    exact trues_hold_le_one w ds b hds hf

/-- Witness of the amended C7: a fresh Button held down for 1002 ticks, polled after one more
tick; and a Button in `HELD` polled three times around a tick. -/
theorem hold_repeat_edge_witness :
    ((run 16 ((run 16 (Button.ctor 0) (pressedTicks 1001)).callback 16 0)
      [Call.callback 0, Call.isPressed]).isHeldRepeat).2 = true ∧
    trues Call.isHeldRepeat 16
      { _pin := 0, _msCount := 7, _state := Button.HELD, _singleBlocked := true,
        _holdBlocked := false }
      [Call.isHeldRepeat, Call.isHeldRepeat, Call.callback 0, Call.isHeldRepeat] ≤ 1 :=
  ⟨(hold_repeat_edge 16).1 (run 16 (Button.ctor 0) (pressedTicks 1001)) 0
      [Call.callback 0, Call.isPressed] (by decide) ⟨0, pressedTicks 1001, rfl⟩
      (by rw [(fresh_state 16 (by decide) 0 1001).2.1 (by decide)]; decide)
      (by rw [← run_pressedTicks_succ]; exact (fresh_state 16 (by decide) 0 1002).2.2 (by decide))
      (by decide),
   (hold_repeat_edge 16).2.2 _ _ (by decide) (by decide)⟩

/-- One pressed tick followed by one `isHeldRepeat()` call on a Button that is
`HELD` with its hold latch set: the call returns true exactly when the tick found
the counter at `MS_HOLD_REPEAT`, and the counter then restarts from 0. -/
theorem poll_step_held (w : Nat) (hw : 16 ≤ w) (b : Button)
    (hb : b._state = Button.HELD) (hl : b._holdBlocked = true)
    (hm : b._msCount ≤ Button.MS_HOLD_REPEAT) :
    ((b.callback w 0).isHeldRepeat).1._state = Button.HELD ∧
    ((b.callback w 0).isHeldRepeat).1._holdBlocked = true ∧
    ((b.callback w 0).isHeldRepeat).1._msCount =
      (if b._msCount = Button.MS_HOLD_REPEAT then 0 else b._msCount + 1) ∧
    (((b.callback w 0).isHeldRepeat).2 = true ↔ b._msCount = Button.MS_HOLD_REPEAT) := by
  simp only [Button.MS_HOLD_REPEAT] at hm ⊢
  rw [callback_held w b 0 (by decide) hb, incr_eq w _ hw (by omega)]
  simp only [Button.MS_HOLD_REPEAT]
  by_cases h : b._msCount = 200
  · have h2 : b._msCount + 1 > 200 := by omega
    simp [h2, h, Button.isHeldRepeat, Button.isHeld, hb]
  · have h2 : ¬ b._msCount + 1 > 200 := by omega
    simp [h2, h, Button.isHeldRepeat, Button.isHeld, hb, hl]

/-- Polling a Button that is `HELD` with its hold latch set once after every
tick: the call after tick `k` returns true exactly when the counter, which
started at `_msCount`, has passed `MS_HOLD_REPEAT` for the first time or a
multiple of `MS_HOLD_REPEAT + 1` ticks later. -/
theorem pollReturn_held (w : Nat) (hw : 16 ≤ w) (k : Nat) (b : Button)
    (hb : b._state = Button.HELD) (hl : b._holdBlocked = true)
    (hm : b._msCount ≤ Button.MS_HOLD_REPEAT) :
    pollReturn w b k = true ↔ (Button.MS_HOLD_REPEAT + 1) ∣ (b._msCount + k + 1) := by
  induction k generalizing b with
  | zero =>
    obtain ⟨-, -, -, h4⟩ := poll_step_held w hw b hb hl hm
    simp only [pollReturn, h4]
    simp only [Button.MS_HOLD_REPEAT] at hm ⊢
    omega
  | succ k ih =>
    obtain ⟨h1, h2, h3, -⟩ := poll_step_held w hw b hb hl hm
    simp only [pollReturn]
    rw [ih _ h1 h2 (by rw [h3]; split_ifs <;> simp only [Button.MS_HOLD_REPEAT] at * <;> omega), h3]
    simp only [Button.MS_HOLD_REPEAT] at hm ⊢
    split_ifs <;> omega

/-- Polling from the tick that enters `HELD` on a Button in use: the call after
tick `k` returns true exactly when `k` is a multiple of `MS_HOLD_REPEAT + 1`. -/
theorem pollReturn_enter_held (w : Nat) (hw : 16 ≤ w) (b : Button) (hwt : WellTimed b)
    (hb : b._state ≠ Button.HELD) (hgo : (b.callback w 0)._state = Button.HELD) (k : Nat) :
    pollReturn w b k = true ↔ (Button.MS_HOLD_REPEAT + 1) ∣ k := by
  obtain ⟨-, -, hm, hl⟩ := enter_held w b 0 hwt hb hgo
  have ht := isHeldRepeat_true _ ((isHeld_iff _).2 hgo) hl
  cases k with
  | zero => simp [pollReturn, ht]
  | succ k =>
    have h1 : ((b.callback w 0).isHeldRepeat).1._state = Button.HELD := by rw [ht]; exact hgo
    have h2 : ((b.callback w 0).isHeldRepeat).1._holdBlocked = true := by rw [ht]
    have h3 : ((b.callback w 0).isHeldRepeat).1._msCount = 0 := by rw [ht]; exact hm
    simp only [pollReturn]
    rw [pollReturn_held w hw k _ h1 h2 (by rw [h3]; exact Nat.zero_le _), h3, Nat.zero_add]

/-- C8 (hold-repeat period), where the code departs from its own comment: the
comment of `MS_HOLD_REPEAT` gives 200 as the duration between repeat events, and
200 ticks should lie between two consecutive `isHeldRepeat()` calls that return
true. Here a fresh Button is held down and polled after every tick from tick
1002, which enters `HELD`, on. The call after that tick returns true, the call
200 ticks later returns false, and the call 201 ticks later returns true. -/
theorem hold_repeat_period_200_fails :
    (run 16 (Button.ctor 0) (pressedTicks 1001))._state = Button.PRESSED ∧
    ((run 16 (Button.ctor 0) (pressedTicks 1001)).callback 16 0)._state = Button.HELD ∧
    pollReturn 16 (run 16 (Button.ctor 0) (pressedTicks 1001)) 0 = true ∧
    pollReturn 16 (run 16 (Button.ctor 0) (pressedTicks 1001)) 200 = false ∧
    pollReturn 16 (run 16 (Button.ctor 0) (pressedTicks 1001)) 201 = true := by
  have hw : 16 ≤ 16 := Nat.le_refl _
  have h1 := (fresh_state 16 hw 0 1001).2.1 (by decide)
  have h2 := (fresh_state 16 hw 0 1002).2.2 (by decide)
  rw [run_pressedTicks_succ] at h2
  have hp := pollReturn_enter_held 16 hw _ (wellTimed_run 16 hw _ _ (wellTimed_ctor 0))
    (by rw [h1]; decide) h2
  refine ⟨h1, h2, (hp 0).2 (by decide), ?_, (hp 201).2 (by decide)⟩
  cases h : pollReturn 16 (run 16 (Button.ctor 0) (pressedTicks 1001)) 200
  · rfl
  · exact absurd ((hp 200).1 h) (by decide)

/-- The period the code has: on a Button reachable from a fresh one
(`unsigned int` of at least 16 bits) that is held down and on which `isHeldRepeat()` is called once
after every tick from the tick that enters `HELD` on, the call after tick `k` of
these returns true exactly when `k` is a multiple of `MS_HOLD_REPEAT + 1` = 201:
the event fires on entry and then once every 201 ticks, so that 201 ticks lie
between any two consecutive calls that return true. -/
theorem hold_repeat_period (w : Nat) (hw : 16 ≤ w) (b : Button) (k : Nat)
    (hreach : Reachable w b)
    (hb : b._state ≠ Button.HELD)
    (hgo : (b.callback w 0)._state = Button.HELD) :
    pollReturn w b k = true ↔ (Button.MS_HOLD_REPEAT + 1) ∣ k :=
  pollReturn_enter_held w hw b (wellTimed_of_reachable w hw b hreach) hb hgo k

/-- The period of the code at work: a fresh Button held down, polled from tick
1002 on; the call 402 ticks after the entry into `HELD` returns true. -/
theorem hold_repeat_period_witness :
    pollReturn 16 (run 16 (Button.ctor 0) (pressedTicks 1001)) 402 = true :=
  (hold_repeat_period 16 (by decide) (run 16 (Button.ctor 0) (pressedTicks 1001)) 402
    ⟨0, pressedTicks 1001, rfl⟩
    (by rw [(fresh_state 16 (by decide) 0 1001).2.1 (by decide)]; decide)
    (by rw [← run_pressedTicks_succ]; exact (fresh_state 16 (by decide) 0 1002).2.2 (by decide))).2
    (by decide)

/-! ## The end-to-end scenario -/

theorem trues_append (q : Call) (w : Nat) (b : Button) (cs ds : List Call) :
    trues q w b (cs ++ ds) = trues q w b cs + trues q w (run w b cs) ds := by
  induction cs generalizing b with
  | nil => simp [trues_nil, run]
  | cons c cs ih =>
    rw [List.cons_append, trues_cons, trues_cons, ih, run]
    omega

/-- While the button stays pressed, a Button that `isPressed()` with its
single-press latch set stays so. -/
theorem run_pressed_blocked (w : Nat) (cs : List Call) (b : Button)
    (hcs : ∀ c ∈ cs, c.keepsPressed = true)
    (hp : b.isPressed = true) (hs : b._singleBlocked = true) :
    (run w b cs).isPressed = true ∧ (run w b cs)._singleBlocked = true := by
  induction cs generalizing b with
  | nil => exact ⟨hp, hs⟩
  | cons c cs ih =>
    obtain ⟨h1, -, h3⟩ := pressed_frame w b c (hcs c (List.mem_cons_self _ _)) hp
    exact ih _ (fun c hc => hcs c (List.mem_cons_of_mem _ hc)) h1 (h3 hs)

/-- A query or a released tick keeps a set single-press latch. -/
theorem released_blocked_frame (w : Nat) (b : Button) (c : Call)
    (hc : c.keepsReleased = true) (hs : b._singleBlocked = true) :
    (c.apply w b).1._singleBlocked = true := by
  cases c with
  | callback r =>
    have hr : r = 1 := by simpa [Call.keepsReleased] using hc
    simp only [Call.apply, hr, callback_released]
    exact hs
  | isHeld => exact hs
  | isPressed => exact hs
  | isHeldRepeat =>
    simp only [Call.apply, Button.isHeldRepeat]
    split_ifs <;> exact hs
  | isSinglePressed =>
    simp only [Call.apply, isSinglePressed_false b (by simp [hs])]
    exact hs

/-- With the single-press latch set, no `isSinglePressed()` call returns true
over queries and released ticks. -/
theorem trues_single_released (w : Nat) (ds : List Call) (b : Button)
    (hds : ∀ c ∈ ds, c.keepsReleased = true) (hs : b._singleBlocked = true) :
    trues Call.isSinglePressed w b ds = 0 := by
  induction ds generalizing b with
  | nil => rfl
  | cons c ds ih =>
    have h1 := released_blocked_frame w b c (hds c (List.mem_cons_self _ _)) hs
    rw [trues_cons, ih _ (fun c hc => hds c (List.mem_cons_of_mem _ hc)) h1]
    have : ¬ (c = Call.isSinglePressed ∧ (c.apply w b).2 = some true) := by
      rintro ⟨rfl, h⟩
      simp [Call.apply, isSinglePressed_false b (by simp [hs])] at h
    simp [this]

/-- Queries and released ticks keep the state `IDLE`. -/
theorem run_released_idle (w : Nat) (ds : List Call) (b : Button)
    (hds : ∀ c ∈ ds, c.keepsReleased = true) (hb : b._state = Button.IDLE) :
    (run w b ds)._state = Button.IDLE := by
  induction ds generalizing b with
  | nil => exact hb
  | cons c ds ih =>
    apply ih _ (fun c hc => hds c (List.mem_cons_of_mem _ hc))
    cases ht : c.isTick with
    | false => rw [(apply_query_frame w b c ht).1, hb]
    | true =>
      cases c with
      | callback r =>
        have hr : r = 1 := by simpa [Call.keepsReleased] using hds _ (List.mem_cons_self _ _)
        simp only [Call.apply, hr, callback_released]
      | _ => simp [Call.isTick] at ht

/-- From the first released tick on, the state is `IDLE` as long as no tick reads
the pressed level. -/
theorem run_released (w : Nat) (ds : List Call) (b : Button)
    (hds : ∀ c ∈ ds, c.keepsReleased = true) (hn : 1 ≤ ticks ds) :
    (run w b ds)._state = Button.IDLE := by
  induction ds generalizing b with
  | nil => simp [ticks] at hn
  | cons c ds ih =>
    have hds2 : ∀ c ∈ ds, c.keepsReleased = true := fun c hc => hds c (List.mem_cons_of_mem _ hc)
    rw [ticks_cons] at hn
    cases ht : c.isTick with
    | false =>
      simp only [ht, Bool.false_eq_true, if_false, Nat.zero_add] at hn
      exact ih _ hds2 hn
    | true =>
      cases c with
      | callback r =>
        have hr : r = 1 := by simpa [Call.keepsReleased] using hds _ (List.mem_cons_self _ _)
        apply run_released_idle w ds _ hds2
        simp only [Call.apply, hr, callback_released]
      | _ => simp [Call.isTick] at ht

theorem keepsReleased_releasedTicks (n : Nat) :
    ∀ c ∈ releasedTicks n, c.keepsReleased = true := by
  intro c hc
  rw [releasedTicks, List.mem_replicate] at hc
  rw [hc.2]
  rfl

theorem ticks_releasedTicks (n : Nat) : ticks (releasedTicks n) = n := by
  induction n with
  | zero => rfl
  | succ n ih =>
    rw [releasedTicks, List.replicate_succ, ticks_cons]
    rw [releasedTicks] at ih
    simp only [Call.isTick, if_true, ih]
    omega

/-- The tick that registers the press of a fresh Button held down: tick 52 finds
the state `DEBOUNCE` and leaves it `PRESSED` with the single-press latch clear. -/
theorem fresh_tick_52 (w : Nat) (hw : 16 ≤ w) (pin : Nat) :
    (run w (Button.ctor pin) (pressedTicks 52))._state = Button.PRESSED ∧
    (run w (Button.ctor pin) (pressedTicks 52))._singleBlocked = false := by
  have h1 := (fresh_state w hw pin 51).1 (by decide)
  have h2 := (fresh_state w hw pin 52).2.1 (by decide)
  refine ⟨h2, ?_⟩
  rw [run_pressedTicks_succ] at h2 ⊢
  exact ((new_press_latches w _ 0 h1 h2).1)

/-- A Button that has just entered `PRESSED` with its single-press latch clear:
the first `isSinglePressed()` call returns true, and over pressed ticks and
queries `cs` followed by released ticks and queries `ds` no later call returns
true and the state is `IDLE` from the first released tick on. -/
theorem single_then_released (w : Nat) (p : Button)
    (hp : p._state = Button.PRESSED) (hs : p._singleBlocked = false) :
    (p.isSinglePressed).2 = true ∧
    (∀ cs ds : List Call, (∀ c ∈ cs, c.keepsPressed = true) →
      (∀ c ∈ ds, c.keepsReleased = true) →
      trues Call.isSinglePressed w (p.isSinglePressed).1 (cs ++ ds) = 0 ∧
      (1 ≤ ticks ds → (run w (p.isSinglePressed).1 (cs ++ ds))._state = Button.IDLE)) := by
  have hip := (isPressed_iff _).2 (Or.inl hp)
  have ht := isSinglePressed_true _ hip hs
  refine ⟨by rw [ht], ?_⟩
  intro cs ds hcs hds
  have h1 : (p.isSinglePressed).1.isPressed = true := by
    rw [ht]; exact hip
  have h2 : (p.isSinglePressed).1._singleBlocked = true := by
    rw [ht]
  obtain ⟨-, h4⟩ := run_pressed_blocked w cs _ hcs h1 h2
  refine ⟨?_, fun hn => ?_⟩
  · rw [trues_append, trues_single_blocked w cs _ hcs h1 h2,
      trues_single_released w ds _ hds h4]
  · rw [run_append]
    exact run_released w ds _ hds hn

/-- Refutation of C9 as stated: on a fresh Button held down, the state after tick
51 is not `PRESSED`, an `isSinglePressed()` call made right after tick 51 returns
false, and a later call, made after tick 52, returns true. -/
theorem scenario_tick_51_fails :
    (run 16 (Button.ctor 0) (pressedTicks 51))._state ≠ Button.PRESSED ∧
    ((run 16 (Button.ctor 0) (pressedTicks 51)).isSinglePressed).2 = false ∧
    ((((run 16 (Button.ctor 0) (pressedTicks 51)).isSinglePressed).1.callback 16
      0).isSinglePressed).2 = true := by
  rw [end_of_debounce_fresh]
  decide

/-- C9, amended: a fresh Button (`unsigned int` of at least 16 bits) is fed 60
pressed ticks, then 5 released ticks. The state is not `PRESSED` after ticks 1
to 51 and is `PRESSED` after tick 52; an `isSinglePressed()` call made right
after tick 52 returns true; after it, over the rest of the scenario (calls `cs`
that are pressed ticks and queries, then calls `ds` that are released ticks and
queries) no `isSinglePressed()` call returns true, and the state is `IDLE` from
the first released tick, tick 61, on. -/
theorem scenario_60_pressed_5_released (w : Nat) (hw : 16 ≤ w) (pin : Nat) :
    (∀ n, n ≤ 51 → (run w (Button.ctor pin) (pressedTicks n))._state ≠ Button.PRESSED) ∧
    (run w (Button.ctor pin) (pressedTicks 52))._state = Button.PRESSED ∧
    ((run w (Button.ctor pin) (pressedTicks 52)).isSinglePressed).2 = true ∧
    (∀ cs ds : List Call, (∀ c ∈ cs, c.keepsPressed = true) →
      (∀ c ∈ ds, c.keepsReleased = true) →
      trues Call.isSinglePressed w
        ((run w (Button.ctor pin) (pressedTicks 52)).isSinglePressed).1 (cs ++ ds) = 0 ∧
      (1 ≤ ticks ds →
        (run w ((run w (Button.ctor pin) (pressedTicks 52)).isSinglePressed).1
          (cs ++ ds))._state = Button.IDLE)) ∧
    (∀ k, 1 ≤ k → k ≤ 5 →
      (run w (Button.ctor pin) (pressedTicks 60 ++ releasedTicks k))._state = Button.IDLE) := by
  obtain ⟨hp, hs⟩ := fresh_tick_52 w hw pin
  obtain ⟨ht, hrest⟩ := single_then_released w _ hp hs
  refine ⟨?_, hp, ht, hrest, ?_⟩
  · intro n hn
    cases n with
    | zero => exact (by decide : Button.IDLE ≠ Button.PRESSED)
    | succ n =>
      rw [(fresh_state w hw pin (n + 1)).1 ⟨by omega, hn⟩]
      decide
  · intro k hk _
    rw [run_append]
    exact run_released w _ _ (keepsReleased_releasedTicks k) (by rw [ticks_releasedTicks]; exact hk)

/-- Witness of the amended C9 with a 16-bit `unsigned int` and pin 0. -/
theorem scenario_60_pressed_5_released_witness :
    16 ≤ 16 ∧ (run 16 (Button.ctor 0) (pressedTicks 52))._state = Button.PRESSED ∧
    (run 16 (Button.ctor 0) (pressedTicks 60 ++ releasedTicks 1))._state = Button.IDLE :=
  ⟨by decide, (scenario_60_pressed_5_released 16 (by decide) 0).2.1,
    (scenario_60_pressed_5_released 16 (by decide) 0).2.2.2.2 1 (by decide) (by decide)⟩

/-- C10 (postcondition of `isSinglePressed()`): on every Button `b` the call
returns true exactly when `_state` is `PRESSED` or `HELD` and `_singleBlocked`
is false; when it returns true the Button after the call is `b` with
`_singleBlocked` set to true, and when it returns false it is `b` itself. -/
theorem isSinglePressed_post (b : Button) :
    ((b.isSinglePressed).2 = true ↔
      (b._state = Button.PRESSED ∨ b._state = Button.HELD) ∧ b._singleBlocked = false) ∧
    ((b.isSinglePressed).2 = true →
      (b.isSinglePressed).1 = { b with _singleBlocked := true }) ∧
    ((b.isSinglePressed).2 = false → (b.isSinglePressed).1 = b) := by
  by_cases h : b.isPressed = true ∧ b._singleBlocked = false
  · rw [isSinglePressed_true b h.1 h.2]
    exact ⟨⟨fun _ => ⟨(isPressed_iff b).1 h.1, h.2⟩, fun _ => rfl⟩, fun _ => rfl,
      fun hf => Bool.noConfusion hf⟩
  · rw [isSinglePressed_false b h]
    exact ⟨⟨fun hf => Bool.noConfusion hf,
        fun hh => absurd ⟨(isPressed_iff b).2 hh.1, hh.2⟩ h⟩,
      fun hf => Bool.noConfusion hf, fun _ => rfl⟩

/-! ## The queries -/

/-- Queries made in a row keep `_pin`, `_state` and `_msCount`. -/
theorem run_queries_frame (w : Nat) (qs : List Call) (b : Button)
    (hqs : ∀ c ∈ qs, c.isTick = false) :
    (run w b qs)._pin = b._pin ∧ (run w b qs)._state = b._state ∧
    (run w b qs)._msCount = b._msCount := by
  induction qs generalizing b with
  | nil => exact ⟨rfl, rfl, rfl⟩
  | cons c qs ih =>
    have hc := hqs c (List.mem_cons_self _ _)
    obtain ⟨h1, h2, h3⟩ := ih (c.apply w b).1 (fun c hc => hqs c (List.mem_cons_of_mem _ hc))
    obtain ⟨h4, h5⟩ := apply_query_frame w b c hc
    have h6 : (c.apply w b).1._pin = b._pin := by
      cases c with
      | callback r => simp [Call.isTick] at hc
      | isHeld => rfl
      | isPressed => rfl
      | isHeldRepeat =>
        simp only [Call.apply, Button.isHeldRepeat]
        split <;> rfl
      | isSinglePressed =>
        simp only [Call.apply, Button.isSinglePressed]
        split <;> rfl
    simp only [run]
    exact ⟨h1.trans h6, h2.trans h4, h3.trans h5⟩

/-- C11 (only the tick mutates `_state` and `_msCount`): on every Button, none
of the four queries `isPressed()`, `isHeld()`, `isSinglePressed()` and
`isHeldRepeat()` changes `_pin`, `_state` or `_msCount` (the first two change
nothing at all); `isSinglePressed()` leaves `_holdBlocked` as it is and
`isHeldRepeat()` leaves `_singleBlocked` as it is. -/
theorem queries_frame (w : Nat) (b : Button) :
    (Call.isPressed.apply w b).1 = b ∧ (Call.isHeld.apply w b).1 = b ∧
    ((b.isSinglePressed).1._pin = b._pin ∧ (b.isSinglePressed).1._state = b._state ∧
      (b.isSinglePressed).1._msCount = b._msCount ∧
      (b.isSinglePressed).1._holdBlocked = b._holdBlocked) ∧
    ((b.isHeldRepeat).1._pin = b._pin ∧ (b.isHeldRepeat).1._state = b._state ∧
      (b.isHeldRepeat).1._msCount = b._msCount ∧
      (b.isHeldRepeat).1._singleBlocked = b._singleBlocked) ∧
    (∀ c : Call, c.isTick = false →
      (c.apply w b).1._pin = b._pin ∧ (c.apply w b).1._state = b._state ∧
      (c.apply w b).1._msCount = b._msCount) := by
  refine ⟨rfl, rfl, ?_, ?_, ?_⟩
  · simp only [Button.isSinglePressed]
    split <;> exact ⟨rfl, rfl, rfl, rfl⟩
  · simp only [Button.isHeldRepeat]
    split <;> exact ⟨rfl, rfl, rfl, rfl⟩
  · intro c hc
    have h := run_queries_frame w [c] b (by simpa using hc)
    simpa [run] using h

/-- C12 (`isPressed()` and `isHeld()` are pure queries): on every Button,
`isPressed()` is true exactly when `_state` is `PRESSED` or `HELD` and `isHeld()`
exactly when it is `HELD`, so `isHeld()` implies `isPressed()`; a call of either
leaves the Button as it is; and after any queries `qs` made with no tick in
between, both return the same values as before them. -/
theorem pure_queries (w : Nat) (b : Button) (qs : List Call)
    (hqs : ∀ c ∈ qs, c.isTick = false) :
    (b.isPressed = true ↔ b._state = Button.PRESSED ∨ b._state = Button.HELD) ∧
    (b.isHeld = true ↔ b._state = Button.HELD) ∧
    (b.isHeld = true → b.isPressed = true) ∧
    (Call.isPressed.apply w b).1 = b ∧ (Call.isHeld.apply w b).1 = b ∧
    (run w b qs).isPressed = b.isPressed ∧ (run w b qs).isHeld = b.isHeld := by
  obtain ⟨-, hs, -⟩ := run_queries_frame w qs b hqs
  refine ⟨isPressed_iff b, isHeld_iff b, ?_, rfl, rfl, ?_, ?_⟩
  · intro h
    exact (isPressed_iff b).2 (Or.inr ((isHeld_iff b).1 h))
  · simp only [Button.isPressed, hs]
  · simp only [Button.isHeld, hs]

/-- Witness of C12: a Button in `HELD` polled with all four queries, the
event queries included, `isPressed()` asked before and after. -/
theorem pure_queries_witness :
    (run 16
      { _pin := 4, _msCount := 9, _state := Button.HELD, _singleBlocked := false,
        _holdBlocked := false }
      [Call.isPressed, Call.isSinglePressed, Call.isHeld, Call.isHeldRepeat]).isPressed = true :=
  (pure_queries 16
    { _pin := 4, _msCount := 9, _state := Button.HELD, _singleBlocked := false,
      _holdBlocked := false }
    [Call.isPressed, Call.isSinglePressed, Call.isHeld, Call.isHeldRepeat]
    (by decide)).2.2.2.2.2.1

/-! ## The counter -/

/-- Refutation of C13 as stated: the tick that moves a Button at the end of its
debounce from `DEBOUNCE` to `PRESSED` leaves the counter at 51, not at 0. -/
theorem counter_reset_on_pressed_fails :
    (Button.callback 16
      { _pin := 0, _msCount := 50, _state := Button.DEBOUNCE, _singleBlocked := false,
        _holdBlocked := false } 0)._state = Button.PRESSED ∧
    (Button.callback 16
      { _pin := 0, _msCount := 50, _state := Button.DEBOUNCE, _singleBlocked := false,
        _holdBlocked := false } 0)._msCount = 51 ∧
    (Button.callback 16
      { _pin := 0, _msCount := 50, _state := Button.DEBOUNCE, _singleBlocked := false,
        _holdBlocked := false } 0)._msCount ≠ 0 := by
  decide

/-- C13, amended: on every Button and for every tick, the counter is 0 after a
tick that moves `IDLE` to `DEBOUNCE`, that moves `PRESSED` to `HELD`, or on which
the `HELD` self-loop timeout fires. The tick that moves `DEBOUNCE` to `PRESSED`
does not set it back: it leaves the incremented counter, which is above
`MS_DEBOUNCE`, and equal to `MS_DEBOUNCE + 1` when the counter was at most
`MS_DEBOUNCE` before, as it is on every Button reachable from a fresh one. -/
theorem counter_reset_on_entry (w : Nat) (b : Button) (r : Int) :
    (b._state = Button.IDLE → (b.callback w r)._state = Button.DEBOUNCE →
      (b.callback w r)._msCount = 0) ∧
    (b._state = Button.PRESSED → (b.callback w r)._state = Button.HELD →
      (b.callback w r)._msCount = 0) ∧
    (firesTimeout w b (Call.callback r) = true →
      (b.callback w r)._state = Button.HELD ∧ (b.callback w r)._msCount = 0) ∧
    (b._state = Button.DEBOUNCE → (b.callback w r)._state = Button.PRESSED →
      (b.callback w r)._msCount = Button.incr w b._msCount ∧
      Button.MS_DEBOUNCE < (b.callback w r)._msCount ∧
      (b._msCount ≤ Button.MS_DEBOUNCE → (b.callback w r)._msCount = Button.MS_DEBOUNCE + 1)) := by
  refine ⟨?_, ?_, ?_, ?_⟩
  · intro hb hgo
    have hr : r ≠ 1 := by
      rintro rfl
      rw [callback_released] at hgo
      exact absurd hgo (show Button.IDLE ≠ Button.DEBOUNCE by decide)
    rw [callback_idle w b r hr hb]
  · intro hb hgo
    have hr : r ≠ 1 := by
      rintro rfl
      rw [callback_released] at hgo
      exact absurd hgo (show Button.IDLE ≠ Button.HELD by decide)
    rw [callback_pressed w b r hr hb] at hgo ⊢
    split_ifs at hgo ⊢
    · rfl
    · exact absurd (hb.symm.trans hgo) (by decide)
  · intro hf
    simp only [firesTimeout, Bool.and_eq_true, bne_iff_ne, ne_eq, beq_iff_eq,
      decide_eq_true_eq] at hf
    obtain ⟨⟨hr, hb⟩, hgt⟩ := hf
    rw [callback_held w b r hr hb, if_pos hgt]
    exact ⟨hb, rfl⟩
  · intro hb hgo
    obtain ⟨-, hgt, he⟩ := enter_pressed w b r hb hgo
    have hle := incr_le w b._msCount
    rw [he]
    refine ⟨rfl, hgt, fun hm => ?_⟩
    simp only [Button.MS_DEBOUNCE] at *
    omega

/-- Witness of the amended C13: the tick that enters `DEBOUNCE` on a fresh
Button, and the tick that enters `PRESSED` at the end of a debounce. -/
theorem counter_reset_on_entry_witness :
    ((Button.ctor 0).callback 16 0)._msCount = 0 ∧
    (Button.callback 16
      { _pin := 0, _msCount := 50, _state := Button.DEBOUNCE, _singleBlocked := true,
        _holdBlocked := false } 0)._msCount = Button.MS_DEBOUNCE + 1 :=
  ⟨(counter_reset_on_entry 16 (Button.ctor 0) 0).1 rfl (by decide),
   ((counter_reset_on_entry 16
      { _pin := 0, _msCount := 50, _state := Button.DEBOUNCE, _singleBlocked := true,
        _holdBlocked := false } 0).2.2.2 rfl (by decide)).2.2 (by decide)⟩

/-! ## Well-formedness of the state -/

/-- No call takes `_state` out of the four values of `enum STATES`. -/
theorem state_valid_apply (w : Nat) (b : Button) (c : Call)
    (hb : b._state = Button.IDLE ∨ b._state = Button.DEBOUNCE ∨ b._state = Button.PRESSED ∨
      b._state = Button.HELD) :
    (c.apply w b).1._state = Button.IDLE ∨ (c.apply w b).1._state = Button.DEBOUNCE ∨
    (c.apply w b).1._state = Button.PRESSED ∨ (c.apply w b).1._state = Button.HELD := by
  cases ht : c.isTick with
  | false => rw [(apply_query_frame w b c ht).1]; exact hb
  | true =>
    cases c with
    | callback r =>
      simp only [Call.apply]
      by_cases hr : r = 1
      · rw [hr, callback_released]; exact Or.inl rfl
      · rcases hb with h | h | h | h
        · rw [callback_idle w b r hr h]; exact Or.inr (Or.inl rfl)
        · rw [callback_debounce w b r hr h]
          split_ifs
          · exact Or.inr (Or.inr (Or.inl rfl))
          · exact Or.inr (Or.inl h)
        · rw [callback_pressed w b r hr h]
          split_ifs
          · exact Or.inr (Or.inr (Or.inr rfl))
          · exact Or.inr (Or.inr (Or.inl h))
        · rw [callback_held w b r hr h]
          split_ifs
          · exact Or.inr (Or.inr (Or.inr h))
          · exact Or.inr (Or.inr (Or.inr h))
    | _ => simp [Call.isTick] at ht

theorem state_valid_run (w : Nat) (cs : List Call) (b : Button)
    (hb : b._state = Button.IDLE ∨ b._state = Button.DEBOUNCE ∨ b._state = Button.PRESSED ∨
      b._state = Button.HELD) :
    (run w b cs)._state = Button.IDLE ∨ (run w b cs)._state = Button.DEBOUNCE ∨
    (run w b cs)._state = Button.PRESSED ∨ (run w b cs)._state = Button.HELD := by
  induction cs generalizing b with
  | nil => exact hb
  | cons c cs ih => exact ih _ (state_valid_apply w b c hb)

/-- C14 (state well-formedness): after any calls `cs` on a fresh Button, ticks
with any reads and queries in any order, `_state` is one of the four values
`IDLE`, `DEBOUNCE`, `PRESSED`, `HELD` of `enum STATES`, which are distinct; so a
tick that reads a pressed level takes one of the four cases of the `switch`. It
holds for every width of `unsigned int`. -/
theorem state_well_formed (w pin : Nat) (cs : List Call) :
    ((run w (Button.ctor pin) cs)._state = Button.IDLE ∨
      (run w (Button.ctor pin) cs)._state = Button.DEBOUNCE ∨
      (run w (Button.ctor pin) cs)._state = Button.PRESSED ∨
      (run w (Button.ctor pin) cs)._state = Button.HELD) ∧
    (run w (Button.ctor pin) cs)._state ≤ Button.HELD ∧
    Button.IDLE < Button.DEBOUNCE ∧ Button.DEBOUNCE < Button.PRESSED ∧
    Button.PRESSED < Button.HELD := by
  have h := state_valid_run w cs (Button.ctor pin) (Or.inl rfl)
  refine ⟨h, ?_, by decide, by decide, by decide⟩
  rcases h with h | h | h | h <;> rw [h] <;> decide

/-! ## Hold-repeat events and the repeat window -/

/-- Over calls that keep the button pressed, `isHeldRepeat()` returns true at
most once more than the timeout fires, and no more often than it fires on a
Button that is `HELD` with its hold latch set. -/
theorem trues_hold_le_firings (w : Nat) (cs : List Call) :
    ∀ b : Button, (∀ c ∈ cs, c.keepsPressed = true) →
      trues Call.isHeldRepeat w b cs ≤ firings w b cs + 1 ∧
      (b._state = Button.HELD → b._holdBlocked = true →
        trues Call.isHeldRepeat w b cs ≤ firings w b cs) := by
  induction cs with
  | nil => intro b _; simp [trues_nil, firings]
  | cons c cs ih =>
    intro b hcs
    have hc := hcs c (List.mem_cons_self _ _)
    obtain ⟨ih1, ih2⟩ := ih (c.apply w b).1 (fun c hc => hcs c (List.mem_cons_of_mem _ hc))
    rw [trues_cons]
    simp only [firings]
    constructor
    · by_cases h : c = Call.isHeldRepeat ∧ (c.apply w b).2 = some true
      · obtain ⟨rfl, h2⟩ := h
        have h3 : (b.isHeldRepeat).2 = true := by simpa [Call.apply] using h2
        obtain ⟨h4, h5⟩ := isHeldRepeat_returned_true b h3
        have := ih2 h4 h5
        split_ifs <;> omega
      · simp only [h, if_false]
        split_ifs <;> omega
    · intro hb hl
      have hno : ¬ (c = Call.isHeldRepeat ∧ (c.apply w b).2 = some true) := by
        rintro ⟨rfl, h⟩
        simp [Call.apply, isHeldRepeat_false b (by simp [hl])] at h
      simp only [hno, if_false]
      cases hf : firesTimeout w b c with
      | true => simp only [if_true]; omega
      | false =>
        obtain ⟨h1, h2⟩ := held_blocked_frame w b c hc hf hb hl
        have := ih2 h1 h2
        simp only [Bool.false_eq_true, if_false]
        omega

/-- Only `PRESSED` and `HELD` lead to `HELD` in one tick. -/
theorem callback_state_held (w : Nat) (b : Button) (r : Int)
    (h : (b.callback w r)._state = Button.HELD) :
    b._state = Button.PRESSED ∨ b._state = Button.HELD := by
  simp only [Button.callback] at h
  split_ifs at h with h1 h2 h3 h4 h5 h6 h7 h8
  · exact absurd h (show Button.IDLE ≠ Button.HELD by decide)
  · exact absurd h (show Button.DEBOUNCE ≠ Button.HELD by decide)
  · exact absurd h (show Button.PRESSED ≠ Button.HELD by decide)
  · exact Or.inr h
  · exact Or.inl h5
  · exact Or.inl h5
  · exact Or.inr h
  · exact Or.inr h
  · exact Or.inr h

/-- While the button stays pressed, the timeout does not fire within the first
`MS_HOLD_REPEAT + 1` ticks on a Button that is not yet `HELD`, nor on one that is
`HELD` with too few ticks left for its counter to pass `MS_HOLD_REPEAT`. -/
theorem firings_zero (w : Nat) (cs : List Call) (b : Button)
    (hcs : ∀ c ∈ cs, c.keepsPressed = true)
    (hn : ticks cs ≤ Button.MS_HOLD_REPEAT + 1)
    (hb : b._state = Button.HELD → b._msCount + ticks cs ≤ Button.MS_HOLD_REPEAT) :
    firings w b cs = 0 := by
  induction cs generalizing b with
  | nil => rfl
  | cons c cs ih =>
    have hc := hcs c (List.mem_cons_self _ _)
    have hcs2 : ∀ c ∈ cs, c.keepsPressed = true := fun c hc => hcs c (List.mem_cons_of_mem _ hc)
    rw [ticks_cons] at hb hn
    simp only [firings]
    cases ht : c.isTick with
    | false =>
      obtain ⟨h1, h2⟩ := apply_query_frame w b c ht
      have hf : firesTimeout w b c = false := by
        cases c with
        | callback r => simp [Call.isTick] at ht
        | _ => rfl
      simp only [ht, Bool.false_eq_true, if_false, Nat.zero_add] at hb hn
      rw [hf, ih _ hcs2 hn (by rw [h1, h2]; exact hb)]
      rfl
    | true =>
      cases c with
      | callback r =>
        have hr : r ≠ 1 := by simpa [Call.keepsPressed] using hc
        have hi := incr_le w b._msCount
        simp only [ht, if_true] at hb hn
        have hn2 : ticks cs ≤ Button.MS_HOLD_REPEAT + 1 := by omega
        by_cases hs : b._state = Button.HELD
        · have hm := hb hs
          have hno : ¬ Button.incr w b._msCount > Button.MS_HOLD_REPEAT := by omega
          have hf : firesTimeout w b (Call.callback r) = false := by
            simp [firesTimeout, hno]
          rw [hf, ih _ hcs2 hn2 ?_]
          · rfl
          · intro _
            simp only [Call.apply]
            rw [callback_held w b r hr hs, if_neg hno]
            simp only
            omega
        · have hf : firesTimeout w b (Call.callback r) = false := by
            simp [firesTimeout, hs]
          rw [hf, ih _ hcs2 hn2 ?_]
          · rfl
          · intro hgo
            simp only [Call.apply] at hgo ⊢
            rcases callback_state_held w b r hgo with hp | hp
            · rw [callback_pressed w b r hr hp] at hgo ⊢
              split_ifs at hgo ⊢
              · simp only [Nat.zero_add]
                omega
              · exact absurd hgo hs
            · exact absurd hp hs
      | _ => simp [Call.isTick] at ht

/-- Over at most `MS_HOLD_REPEAT` ticks that keep the button pressed, the timeout
fires at most once. -/
theorem firings_le_one (w : Nat) (cs : List Call) (b : Button)
    (hcs : ∀ c ∈ cs, c.keepsPressed = true)
    (hn : ticks cs ≤ Button.MS_HOLD_REPEAT) :
    firings w b cs ≤ 1 := by
  induction cs generalizing b with
  | nil => simp [firings]
  | cons c cs ih =>
    have hcs2 : ∀ c ∈ cs, c.keepsPressed = true := fun c hc => hcs c (List.mem_cons_of_mem _ hc)
    rw [ticks_cons] at hn
    simp only [firings]
    cases hf : firesTimeout w b c with
    | false =>
      have := ih (c.apply w b).1 hcs2 (by omega)
      simp only [Bool.false_eq_true, if_false]
      omega
    | true =>
      cases c with
      | callback r =>
        simp only [firesTimeout, Bool.and_eq_true, bne_iff_ne, ne_eq, beq_iff_eq,
          decide_eq_true_eq] at hf
        obtain ⟨⟨hr, hb⟩, hgt⟩ := hf
        simp only [Call.isTick, if_true] at hn
        have hz := firings_zero w cs (Call.apply w b (Call.callback r)).1 hcs2 (by omega) (by
          intro _
          simp only [Call.apply]
          rw [callback_held w b r hr hb, if_pos hgt]
          simp only [Nat.zero_add]
          omega)
        rw [hz]
        simp
      | _ => simp [firesTimeout] at hf

theorem trues_of_not_mem (q : Call) (w : Nat) (cs : List Call) (b : Button)
    (h : ∀ c ∈ cs, c ≠ q) : trues q w b cs = 0 := by
  induction cs generalizing b with
  | nil => rfl
  | cons c cs ih =>
    have hc : ¬ (c = q ∧ (c.apply w b).2 = some true) :=
      fun hh => h c (List.mem_cons_self _ _) hh.1
    rw [trues_cons, ih _ (fun c hc => h c (List.mem_cons_of_mem _ hc)), if_neg hc]

/-- Pressed ticks on a Button that is `HELD`, too few for its counter to pass
`MS_HOLD_REPEAT`: each adds one to the counter and the hold latch stays as it is. -/
theorem held_ticks (w : Nat) (hw : 16 ≤ w) (k : Nat) (b : Button)
    (hb : b._state = Button.HELD) (hm : b._msCount + k ≤ Button.MS_HOLD_REPEAT) :
    (run w b (pressedTicks k))._state = Button.HELD ∧
    (run w b (pressedTicks k))._msCount = b._msCount + k ∧
    (run w b (pressedTicks k))._holdBlocked = b._holdBlocked := by
  induction k generalizing b with
  | zero => exact ⟨hb, rfl, rfl⟩
  | succ k ih =>
    simp only [Button.MS_HOLD_REPEAT] at hm
    have hi := incr_eq w b._msCount hw (by omega)
    have hno : ¬ b._msCount + 1 > Button.MS_HOLD_REPEAT := by
      simp only [Button.MS_HOLD_REPEAT]; omega
    have he : b.callback w 0 = { b with _msCount := b._msCount + 1 } := by
      rw [callback_held w b 0 (by decide) hb, hi, if_neg hno]
    rw [pressedTicks, List.replicate_succ]
    simp only [run, Call.apply]
    rw [he]
    have hm2 : b._msCount + 1 + k ≤ Button.MS_HOLD_REPEAT := by
      simp only [Button.MS_HOLD_REPEAT]; omega
    obtain ⟨h1, h2, h3⟩ := ih { b with _msCount := b._msCount + 1 } hb hm2
    rw [pressedTicks] at h1 h2 h3
    refine ⟨h1, ?_, h3⟩
    rw [h2]
    simp only
    omega

/-- A Button that is `HELD` one tick before the end of a repeat window and was not
polled in it: polled after each of the next two ticks, it delivers two events. -/
theorem two_events_in_two_ticks (w : Nat) (hw : 16 ≤ w) (p : Button)
    (hs : p._state = Button.HELD) (hm : p._msCount = 199) (hl : p._holdBlocked = false) :
    trues Call.isHeldRepeat w p
      [Call.callback 0, Call.isHeldRepeat, Call.callback 0, Call.isHeldRepeat] = 2 := by
  have hi1 : Button.incr w 199 = 200 := incr_eq w 199 hw (by decide)
  have hi2 : Button.incr w 200 = 201 := incr_eq w 200 hw (by decide)
  obtain ⟨pin, m, s, sb, hb⟩ := p
  simp only at hs hm hl
  subst hs hm hl
  simp [trues_cons, trues_nil, Call.apply, Button.callback, Button.isHeldRepeat, Button.isHeld,
    hi1, hi2, Button.HELD, Button.IDLE, Button.DEBOUNCE, Button.PRESSED, Button.MS_HOLD_REPEAT]

/-- A fresh Button held down for 1201 ticks and never polled: it entered `HELD`
on tick 1002 and is one tick before the end of its first repeat window. -/
theorem fresh_before_timeout (w : Nat) (hw : 16 ≤ w) (pin : Nat) :
    (run w (Button.ctor pin) (pressedTicks 1201))._state = Button.HELD ∧
    (run w (Button.ctor pin) (pressedTicks 1201))._msCount = 199 ∧
    (run w (Button.ctor pin) (pressedTicks 1201))._holdBlocked = false := by
  have h1 := (fresh_state w hw pin 1001).2.1 (by decide)
  have h2 := (fresh_state w hw pin 1002).2.2 (by decide)
  have hsplit : pressedTicks 1201 = pressedTicks 1002 ++ pressedTicks 199 := by
    simp only [pressedTicks, List.append_replicate_replicate]
  have e1 : run w (Button.ctor pin) (pressedTicks 1201) =
      run w ((run w (Button.ctor pin) (pressedTicks 1001)).callback w 0) (pressedTicks 199) := by
    rw [hsplit, run_append, run_pressedTicks_succ w (Button.ctor pin) 1001]
  rw [run_pressedTicks_succ w (Button.ctor pin) 1001] at h2
  rw [e1]
  obtain ⟨-, -, hm, hl⟩ := enter_held w _ 0
    (wellTimed_run w hw _ _ (wellTimed_ctor pin)) (by rw [h1]; decide) h2
  obtain ⟨h3, h4, h5⟩ := held_ticks w hw 199 _ h2 (by rw [hm]; decide)
  exact ⟨h3, by rw [h4, hm], by rw [h5, hl]⟩

/-- Refutation of C15 as stated: a fresh Button is held down for 1201 ticks
without being polled, so that it is `HELD`; over the next 200 pressed ticks,
polled after the first and after the second of them, `isHeldRepeat()` returns
true twice. -/
theorem hold_repeat_twice_in_200_ticks :
    (run 16 (Button.ctor 0) (pressedTicks 1201))._state = Button.HELD ∧
    ticks ([Call.callback 0, Call.isHeldRepeat, Call.callback 0, Call.isHeldRepeat]
      ++ pressedTicks 198) = Button.MS_HOLD_REPEAT ∧
    trues Call.isHeldRepeat 16 (run 16 (Button.ctor 0) (pressedTicks 1201))
      ([Call.callback 0, Call.isHeldRepeat, Call.callback 0, Call.isHeldRepeat]
        ++ pressedTicks 198) = 2 := by
  obtain ⟨h1, h2, h3⟩ := fresh_before_timeout 16 (by decide) 0
  refine ⟨h1, ?_, ?_⟩
  · have := ticks_pressedTicks 198
    simp only [List.cons_append, List.nil_append, ticks_cons, Call.isTick, this]
    decide
  · rw [trues_append, two_events_in_two_ticks 16 (by decide) _ h1 h2 h3,
      trues_of_not_mem Call.isHeldRepeat 16 (pressedTicks 198) _ (by
        intro c hc
        rw [pressedTicks, List.mem_replicate] at hc
        rw [hc.2]
        decide)]

/-- C15, amended: on every Button, reachable or not, over calls `cs` that are
pressed ticks and queries in any order with at most `MS_HOLD_REPEAT` = 200 ticks
among them, the `HELD` self-loop timeout fires at most once and `isHeldRepeat()`
returns true at most once more than it fires: at most once when it fires on none
of the ticks, that is within one repeat window, and at most twice otherwise. -/
theorem hold_repeat_per_window (w : Nat) (b : Button) (cs : List Call)
    (hcs : ∀ c ∈ cs, c.keepsPressed = true)
    (hn : ticks cs ≤ Button.MS_HOLD_REPEAT) :
    firings w b cs ≤ 1 ∧
    trues Call.isHeldRepeat w b cs ≤ firings w b cs + 1 ∧
    (firings w b cs = 0 → trues Call.isHeldRepeat w b cs ≤ 1) ∧
    trues Call.isHeldRepeat w b cs ≤ 2 := by
  have h1 := firings_le_one w cs b hcs hn
  have h2 := (trues_hold_le_firings w cs b hcs).1
  exact ⟨h1, h2, fun h0 => by omega, by omega⟩

/-- Witness of the amended C15: a Button in `HELD` one tick before its timeout,
polled after each of two ticks. -/
theorem hold_repeat_per_window_witness :
    trues Call.isHeldRepeat 16
      { _pin := 0, _msCount := 199, _state := Button.HELD, _singleBlocked := false,
        _holdBlocked := false }
      [Call.callback 0, Call.isHeldRepeat, Call.callback 0, Call.isHeldRepeat] ≤ 2 :=
  (hold_repeat_per_window 16
    { _pin := 0, _msCount := 199, _state := Button.HELD, _singleBlocked := false,
      _holdBlocked := false }
    [Call.callback 0, Call.isHeldRepeat, Call.callback 0, Call.isHeldRepeat]
    (by decide) (by decide)).2.2.2

/-! ## The press timeline -/

/-- C16 (exact press timeline): from any Button in `IDLE` (`unsigned int` of at
least 16 bits), after calls `cs` that are pressed ticks and queries in any order
with `n` ticks among them, the state is `DEBOUNCE` for `n` from 1 to
`MS_DEBOUNCE + 1` = 51, `PRESSED` for `n` from 52 to `MS_HOLD + 1` = 1001 and
`HELD` for `n` from `MS_HOLD + 2` = 1002 on. The counter is `n - 1` in `DEBOUNCE`
and in `PRESSED` alike: it is carried over, so that `HELD` is entered
`MS_HOLD + 1` ticks after the tick that left `IDLE`. -/
theorem press_timeline (w : Nat) (hw : 16 ≤ w) (b : Button) (cs : List Call)
    (hb : b._state = Button.IDLE)
    (hcs : ∀ c ∈ cs, c.keepsPressed = true) :
    (1 ≤ ticks cs ∧ ticks cs ≤ Button.MS_DEBOUNCE + 1 →
      (run w b cs)._state = Button.DEBOUNCE ∧ (run w b cs)._msCount = ticks cs - 1) ∧
    (Button.MS_DEBOUNCE + 2 ≤ ticks cs ∧ ticks cs ≤ Button.MS_HOLD + 1 →
      (run w b cs)._state = Button.PRESSED ∧ (run w b cs)._msCount = ticks cs - 1) ∧
    (Button.MS_HOLD + 2 ≤ ticks cs → (run w b cs)._state = Button.HELD) := by
  have hwt := wellTimed_of_idle b hb
  obtain ⟨h1, h2, h3⟩ := state_run w hw b hwt cs hcs
  have hp := pos_run w hw cs b hwt hcs
  rw [pos_of_idle b hb, Nat.zero_add] at h1 h2 h3 hp
  simp only [Button.MS_DEBOUNCE, Button.MS_HOLD] at hp ⊢
  refine ⟨fun h => ?_, fun h => ?_, fun h => h3 h⟩
  · have hs := h1 h
    refine ⟨hs, ?_⟩
    simp only [pos, hs, Button.DEBOUNCE, Button.IDLE, Button.HELD, Button.MS_HOLD] at hp
    simp only [show ¬ (1 = 0) by decide, show ¬ (1 = 3) by decide, if_false] at hp
    omega
  · have hs := h2 h
    refine ⟨hs, ?_⟩
    simp only [pos, hs, Button.PRESSED, Button.IDLE, Button.HELD, Button.MS_HOLD] at hp
    simp only [show ¬ (2 = 0) by decide, show ¬ (2 = 3) by decide, if_false] at hp
    omega

/-- Witness of C16: a Button in `IDLE` after a press, pressed again for 52
ticks. -/
theorem press_timeline_witness :
    (run 16
      { _pin := 1, _msCount := 700, _state := Button.IDLE, _singleBlocked := true,
        _holdBlocked := true }
      (pressedTicks 52))._state = Button.PRESSED :=
  ((press_timeline 16 (by decide)
    { _pin := 1, _msCount := 700, _state := Button.IDLE, _singleBlocked := true,
      _holdBlocked := true }
    (pressedTicks 52) rfl (keepsPressed_pressedTicks 52)).2.1
      (by rw [ticks_pressedTicks]; decide)).1

/-! ## The counter stays small -/

/-- No call takes the counter of a Button in use above `MS_HOLD`. -/
theorem bounded_apply (w : Nat) (b : Button) (c : Call) (hb : WellTimed b)
    (hm : b._msCount ≤ Button.MS_HOLD) :
    (c.apply w b).1._msCount ≤ Button.MS_HOLD := by
  cases ht : c.isTick with
  | false => rw [(apply_query_frame w b c ht).2]; exact hm
  | true =>
    cases c with
    | callback r =>
      have hi := incr_le w b._msCount
      simp only [Call.apply]
      by_cases hr : r = 1
      · rw [hr, callback_released]; exact hm
      · rcases hb with h | ⟨h, h1⟩ | ⟨h, -⟩ | ⟨h, h1⟩
        · rw [callback_idle w b r hr h]; exact Nat.zero_le _
        · rw [callback_debounce w b r hr h]
          simp only [Button.MS_DEBOUNCE, Button.MS_HOLD] at *
          split_ifs <;> simp only <;> omega
        · rw [callback_pressed w b r hr h]
          simp only [Button.MS_HOLD] at *
          split_ifs <;> simp only <;> omega
        · rw [callback_held w b r hr h]
          simp only [Button.MS_HOLD_REPEAT, Button.MS_HOLD] at *
          split_ifs <;> simp only <;> omega
    | _ => simp [Call.isTick] at ht

theorem bounded_run (w : Nat) (hw : 16 ≤ w) (cs : List Call) (b : Button) (hb : WellTimed b)
    (hm : b._msCount ≤ Button.MS_HOLD) :
    (run w b cs)._msCount ≤ Button.MS_HOLD := by
  induction cs generalizing b with
  | nil => exact hm
  | cons c cs ih => exact ih _ (wellTimed_apply w hw b c hb) (bounded_apply w b c hb hm)

/-- With the counter at most `MS_HOLD`, a call does the same whatever the width
of `unsigned int`, from 16 bits on. -/
theorem apply_width (w v : Nat) (hw : 16 ≤ w) (hv : 16 ≤ v) (b : Button) (c : Call)
    (hm : b._msCount ≤ Button.MS_HOLD) :
    c.apply v b = c.apply w b := by
  have h1 := incr_eq w b._msCount hw (by simp only [Button.MS_HOLD] at hm; omega)
  have h2 := incr_eq v b._msCount hv (by simp only [Button.MS_HOLD] at hm; omega)
  cases c with
  | callback r => simp only [Call.apply, Button.callback, h1, h2]
  | _ => rfl

theorem run_width (w v : Nat) (hw : 16 ≤ w) (hv : 16 ≤ v) (cs : List Call) (b : Button)
    (hb : WellTimed b) (hm : b._msCount ≤ Button.MS_HOLD) :
    run v b cs = run w b cs ∧ trace v b cs = trace w b cs := by
  induction cs generalizing b with
  | nil => exact ⟨rfl, rfl⟩
  | cons c cs ih =>
    obtain ⟨h1, h2⟩ := ih _ (wellTimed_apply w hw b c hb) (bounded_apply w b c hb hm)
    simp only [run, trace, apply_width w v hw hv b c hm, h1, h2, and_self]

/-- C17 (counter bound, no wrap-around): after any calls `cs` on a fresh Button
(`unsigned int` of `w` bits, at least 16), the counter is at most `MS_HOLD` =
1000; it is at most `MS_DEBOUNCE` in `DEBOUNCE`, from `MS_DEBOUNCE + 1` to
`MS_HOLD` in `PRESSED` and at most `MS_HOLD_REPEAT` in `HELD`. So `++_msCount`
stays below `2 ^ 16` and does not wrap, and with any other width `v` of at least
16 bits the same calls leave the same Button and return the same values. -/
theorem counter_bounded (w v : Nat) (hw : 16 ≤ w) (hv : 16 ≤ v) (pin : Nat) (cs : List Call) :
    (run w (Button.ctor pin) cs)._msCount ≤ Button.MS_HOLD ∧
    ((run w (Button.ctor pin) cs)._state = Button.DEBOUNCE →
      (run w (Button.ctor pin) cs)._msCount ≤ Button.MS_DEBOUNCE) ∧
    ((run w (Button.ctor pin) cs)._state = Button.PRESSED →
      Button.MS_DEBOUNCE + 1 ≤ (run w (Button.ctor pin) cs)._msCount ∧
      (run w (Button.ctor pin) cs)._msCount ≤ Button.MS_HOLD) ∧
    ((run w (Button.ctor pin) cs)._state = Button.HELD →
      (run w (Button.ctor pin) cs)._msCount ≤ Button.MS_HOLD_REPEAT) ∧
    (run w (Button.ctor pin) cs)._msCount + 1 < 2 ^ 16 ∧
    Button.incr w (run w (Button.ctor pin) cs)._msCount =
      (run w (Button.ctor pin) cs)._msCount + 1 ∧
    run v (Button.ctor pin) cs = run w (Button.ctor pin) cs ∧
    trace v (Button.ctor pin) cs = trace w (Button.ctor pin) cs := by
  have hwt := wellTimed_run w hw cs _ (wellTimed_ctor pin)
  have hm := bounded_run w hw cs _ (wellTimed_ctor pin)
    (show (Button.ctor pin)._msCount ≤ Button.MS_HOLD from Nat.zero_le _)
  obtain ⟨hr, ht⟩ := run_width w v hw hv cs _ (wellTimed_ctor pin)
    (show (Button.ctor pin)._msCount ≤ Button.MS_HOLD from Nat.zero_le _)
  generalize run w (Button.ctor pin) cs = x at hwt hm hr ⊢
  have hlt : x._msCount + 1 < 2 ^ 16 := by
    simp only [Button.MS_HOLD] at hm
    have : (2 : Nat) ^ 16 = 65536 := by decide
    omega
  refine ⟨hm, ?_, ?_, ?_, hlt, incr_eq w _ hw (by simp only [Button.MS_HOLD] at hm; omega), hr, ht⟩
  · intro hs
    rcases hwt with h | ⟨-, h1⟩ | ⟨h, -⟩ | ⟨h, -⟩
    · exact absurd (hs.symm.trans h) (by decide)
    · exact h1
    · exact absurd (hs.symm.trans h) (by decide)
    · exact absurd (hs.symm.trans h) (by decide)
  · intro hs
    rcases hwt with h | ⟨h, -⟩ | ⟨-, h1, h2, -⟩ | ⟨h, -⟩
    · exact absurd (hs.symm.trans h) (by decide)
    · exact absurd (hs.symm.trans h) (by decide)
    · exact ⟨h1, h2⟩
    · exact absurd (hs.symm.trans h) (by decide)
  · intro hs
    rcases hwt with h | ⟨h, -⟩ | ⟨h, -⟩ | ⟨-, h1⟩
    · exact absurd (hs.symm.trans h) (by decide)
    · exact absurd (hs.symm.trans h) (by decide)
    · exact absurd (hs.symm.trans h) (by decide)
    · exact h1

/-- Witness of C17: a press of 60 ticks on a fresh Button, 16 and 32 bits. -/
theorem counter_bounded_witness :
    16 ≤ 16 ∧ 16 ≤ 32 ∧
    (run 16 (Button.ctor 0) (pressedTicks 60))._msCount ≤ Button.MS_HOLD ∧
    run 32 (Button.ctor 0) (pressedTicks 60) = run 16 (Button.ctor 0) (pressedTicks 60) :=
  ⟨by decide, by decide,
    (counter_bounded 16 32 (by decide) (by decide) 0 (pressedTicks 60)).1,
    (counter_bounded 16 32 (by decide) (by decide) 0 (pressedTicks 60)).2.2.2.2.2.2.1⟩

/-! ## Monotone progression -/

/-- A tick that reads a pressed level does not lower `_state` and raises it by at
most one. -/
theorem callback_pressed_step (w : Nat) (b : Button) (r : Int) (hr : r ≠ 1) :
    b._state ≤ (b.callback w r)._state ∧ (b.callback w r)._state ≤ b._state + 1 := by
  simp only [Button.callback, hr, if_false]
  split_ifs with h1 h2 h3 h4 h5 h6 h7 <;>
    simp only [Button.IDLE, Button.DEBOUNCE, Button.PRESSED, Button.HELD] at * <;> omega

/-- Calls that keep the button pressed do not lower `_state`. -/
theorem run_pressed_mono (w : Nat) (cs : List Call) (b : Button)
    (hcs : ∀ c ∈ cs, c.keepsPressed = true) :
    b._state ≤ (run w b cs)._state := by
  induction cs generalizing b with
  | nil => exact Nat.le_refl _
  | cons c cs ih =>
    have h := ih (c.apply w b).1 (fun c hc => hcs c (List.mem_cons_of_mem _ hc))
    refine Nat.le_trans ?_ h
    cases ht : c.isTick with
    | false => rw [(apply_query_frame w b c ht).1]
    | true =>
      cases c with
      | callback r =>
        have hr : r ≠ 1 := by simpa [Call.keepsPressed] using hcs _ (List.mem_cons_self _ _)
        exact (callback_pressed_step w b r hr).1
      | _ => simp [Call.isTick] at ht

/-- Calls that keep the button pressed keep `isPressed()` true. -/
theorem run_keeps_isPressed (w : Nat) (cs : List Call) (b : Button)
    (hcs : ∀ c ∈ cs, c.keepsPressed = true) (hp : b.isPressed = true) :
    (run w b cs).isPressed = true := by
  induction cs generalizing b with
  | nil => exact hp
  | cons c cs ih =>
    exact ih _ (fun c hc => hcs c (List.mem_cons_of_mem _ hc))
      (pressed_frame w b c (hcs c (List.mem_cons_self _ _)) hp).1

/-- Calls that keep the button pressed keep the state `HELD`. -/
theorem run_keeps_held (w : Nat) (cs : List Call) (b : Button)
    (hcs : ∀ c ∈ cs, c.keepsPressed = true) (hb : b._state = Button.HELD) :
    (run w b cs)._state = Button.HELD := by
  induction cs generalizing b with
  | nil => exact hb
  | cons c cs ih =>
    apply ih _ (fun c hc => hcs c (List.mem_cons_of_mem _ hc))
    cases ht : c.isTick with
    | false => rw [(apply_query_frame w b c ht).1]; exact hb
    | true =>
      cases c with
      | callback q =>
        have hq : q ≠ 1 := by simpa [Call.keepsPressed] using hcs _ (List.mem_cons_self _ _)
        simp only [Call.apply]
        rw [callback_held w b q hq hb]
        split_ifs <;> exact hb
      | _ => simp [Call.isTick] at ht

/-- C18 (monotone progression under pressed reads): the four states are ordered
`IDLE < DEBOUNCE < PRESSED < HELD`. On every Button a tick that reads a pressed
level (any read other than 1) does not lower `_state` and raises it by at most
one step. So over calls `cs` that are pressed ticks and queries `_state` does not
go down, `isPressed()` and `isHeld()` stay true once they are, and the only call
that takes a Button that is not in `IDLE` to `IDLE` is a tick that reads the
released level 1. -/
theorem pressed_reads_monotone (w : Nat) (b : Button) (r : Int) (cs : List Call)
    (hr : r ≠ 1) (hcs : ∀ c ∈ cs, c.keepsPressed = true) :
    (Button.IDLE < Button.DEBOUNCE ∧ Button.DEBOUNCE < Button.PRESSED ∧
      Button.PRESSED < Button.HELD) ∧
    b._state ≤ (b.callback w r)._state ∧ (b.callback w r)._state ≤ b._state + 1 ∧
    b._state ≤ (run w b cs)._state ∧
    (b.isPressed = true → (run w b cs).isPressed = true) ∧
    (b.isHeld = true → (run w b cs).isHeld = true) ∧
    (∀ c : Call, b._state ≠ Button.IDLE → (c.apply w b).1._state = Button.IDLE →
      c = Call.callback 1) := by
  obtain ⟨h1, h2⟩ := callback_pressed_step w b r hr
  refine ⟨by decide, h1, h2, run_pressed_mono w cs b hcs, ?_, ?_, ?_⟩
  · exact run_keeps_isPressed w cs b hcs
  · intro hh
    rw [isHeld_iff] at hh ⊢
    exact run_keeps_held w cs b hcs hh
  · intro c hne hz
    cases ht : c.isTick with
    | false =>
      rw [(apply_query_frame w b c ht).1] at hz
      exact absurd hz hne
    | true =>
      cases c with
      | callback q =>
        by_cases hq : q = 1
        · rw [hq]
        · have := (callback_pressed_step w b q hq).1
          simp only [Call.apply] at hz
          rw [hz] at this
          simp only [Button.IDLE] at this hne
          omega
      | _ => simp [Call.isTick] at ht

/-- Witness of C18: a Button in `PRESSED`, one pressed tick, then a tick with a
poll of each event query. -/
theorem pressed_reads_monotone_witness :
    (run 16
      { _pin := 0, _msCount := 1000, _state := Button.PRESSED, _singleBlocked := false,
        _holdBlocked := false }
      [Call.callback 0, Call.isSinglePressed, Call.isHeldRepeat]).isPressed = true :=
  (pressed_reads_monotone 16
    { _pin := 0, _msCount := 1000, _state := Button.PRESSED, _singleBlocked := false,
      _holdBlocked := false }
    0 [Call.callback 0, Call.isSinglePressed, Call.isHeldRepeat]
    (by decide) (by decide)).2.2.2.2.1 rfl

/-! ## A whole press, polled -/

/-- A Button that has just entered `PRESSED` with its single-press latch clear,
polled, ticked and polled again: exactly one of the two calls returns true. -/
theorem one_event_after_press (w : Nat) (p : Button)
    (hp : p._state = Button.PRESSED) (hs : p._singleBlocked = false) :
    trues Call.isSinglePressed w p
      [Call.isSinglePressed, Call.callback 0, Call.isSinglePressed] = 1 := by
  obtain ⟨ht, hrest⟩ := single_then_released w p hp hs
  have h0 := (hrest [Call.callback 0, Call.isSinglePressed] [] (by decide) (by decide)).1
  rw [List.append_nil] at h0
  rw [trues_cons]
  simp only [Call.apply, ht, and_self, if_true, h0]

/-- A fresh Button held down for 52 ticks, then polled, ticked and polled again:
exactly one `isSinglePressed()` call returns true. -/
theorem fresh_press_one_event (w : Nat) (hw : 16 ≤ w) (pin : Nat) :
    trues Call.isSinglePressed w (Button.ctor pin)
      (pressedTicks 52 ++ [Call.isSinglePressed, Call.callback 0, Call.isSinglePressed]) = 1 := by
  obtain ⟨hp, hs⟩ := fresh_tick_52 w hw pin
  rw [trues_append, one_event_after_press w _ hp hs,
    trues_of_not_mem Call.isSinglePressed w (pressedTicks 52) _ (by
      intro c hc
      rw [pressedTicks, List.mem_replicate] at hc
      rw [hc.2]
      decide)]

/-- Witness of C4: a whole press on a fresh Button. It is held down for 52 ticks,
which registers the press, then polled, ticked and polled again: the event is
delivered once, not twice; and right after tick 52 `isPressed()` is true, the
event is not yet delivered, and two calls in a row return true, then false. -/
theorem single_press_at_most_once_witness :
    trues Call.isSinglePressed 16 (Button.ctor 0)
      (pressedTicks 52 ++ [Call.isSinglePressed, Call.callback 0, Call.isSinglePressed]) ≤ 1 ∧
    trues Call.isSinglePressed 16 (Button.ctor 0)
      (pressedTicks 52 ++ [Call.isSinglePressed, Call.callback 0, Call.isSinglePressed]) = 1 ∧
    (run 16 (Button.ctor 0) (pressedTicks 52)).isPressed = true ∧
    (run 16 (Button.ctor 0) (pressedTicks 52))._singleBlocked = false ∧
    ((run 16 (Button.ctor 0) (pressedTicks 52)).isSinglePressed).2 = true ∧
    (((run 16 (Button.ctor 0) (pressedTicks 52)).isSinglePressed).1.isSinglePressed).2 = false :=
  ⟨(single_press_at_most_once 16 (Button.ctor 0)
      (pressedTicks 52 ++ [Call.isSinglePressed, Call.callback 0, Call.isSinglePressed])
      (fun c hc => (List.mem_append.1 hc).elim (keepsPressed_pressedTicks 52 c)
        (by revert c; decide))).1,
   fresh_press_one_event 16 (by decide) 0,
   (isPressed_iff _).2 (Or.inl (fresh_tick_52 16 (by decide) 0).1),
   (fresh_tick_52 16 (by decide) 0).2,
   (single_press_at_most_once 16 (Button.ctor 0) (pressedTicks 52)
      (keepsPressed_pressedTicks 52)).2
      ((isPressed_iff _).2 (Or.inl (fresh_tick_52 16 (by decide) 0).1))
      (fresh_tick_52 16 (by decide) 0).2⟩

/-! ## Hold-repeat events across a release -/

/-- While the button stays pressed, the timeout does not fire on a Button in use
up to and including the tick that enters `HELD`. -/
theorem firings_before_held (w : Nat) (hw : 16 ≤ w) (cs : List Call) (b : Button)
    (hb : WellTimed b) (hcs : ∀ c ∈ cs, c.keepsPressed = true)
    (hn : pos b + ticks cs ≤ Button.MS_HOLD + 2) :
    firings w b cs = 0 := by
  induction cs generalizing b with
  | nil => rfl
  | cons c cs ih =>
    have hc := hcs c (List.mem_cons_self _ _)
    have hp := pos_apply w hw b c hb hc
    rw [ticks_cons] at hn
    have hf : firesTimeout w b c = false := by
      cases c with
      | callback r =>
        have hs : b._state ≠ Button.HELD := by
          intro hs
          have : pos b = Button.MS_HOLD + 2 := by
            simp [pos, hs, Button.HELD, Button.IDLE]
          simp only [Call.isTick, if_true] at hn
          omega
        simp [firesTimeout, hs]
      | _ => rfl
    simp only [firings, hf, Bool.false_eq_true, if_false, Nat.zero_add]
    exact ih _ (wellTimed_apply w hw b c hb) (fun c hc => hcs c (List.mem_cons_of_mem _ hc))
      (by rw [hp]; omega)

theorem firings_cons (w : Nat) (b : Button) (c : Call) (cs : List Call) :
    firings w b (c :: cs) =
      (if firesTimeout w b c then 1 else 0) + firings w (c.apply w b).1 cs :=
  rfl

theorem run_cons (w : Nat) (b : Button) (c : Call) (cs : List Call) :
    run w b (c :: cs) = run w (c.apply w b).1 cs :=
  rfl

theorem apply_callback (w : Nat) (b : Button) (r : Int) :
    ((Call.callback r).apply w b).1 = b.callback w r :=
  rfl

/-- A release followed by a new press of 1002 ticks, on any Button: no tick of
them fires the `HELD` self-loop timeout, and the `isHeldRepeat()` call made after
them returns true, the new press having cleared the hold latch. -/
theorem repress_rearms (w : Nat) (hw : 16 ≤ w) (x : Button) :
    firings w x (Call.callback 1 :: pressedTicks 1002) = 0 ∧
    ((run w x (Call.callback 1 :: pressedTicks 1002)).isHeldRepeat).2 = true := by
  have hy : (x.callback w 1)._state = Button.IDLE := by rw [callback_released]
  have hwt := wellTimed_of_idle _ hy
  have hkp := keepsPressed_pressedTicks
  constructor
  · have hf : firesTimeout w x (Call.callback 1) = false := by simp [firesTimeout]
    rw [firings_cons, hf, apply_callback]
    simp only [Bool.false_eq_true, if_false, Nat.zero_add]
    exact firings_before_held w hw _ _ hwt (hkp 1002)
      (by rw [pos_of_idle _ hy, ticks_pressedTicks]; decide)
  · rw [run_cons, apply_callback]
    obtain ⟨-, h1, -⟩ := state_run w hw _ hwt (pressedTicks 1001) (hkp 1001)
    obtain ⟨-, -, h2⟩ := state_run w hw _ hwt (pressedTicks 1002) (hkp 1002)
    rw [pos_of_idle _ hy, ticks_pressedTicks] at h1 h2
    have h1 := h1 (by decide)
    have h2 := h2 (by decide)
    rw [run_pressedTicks_succ w (x.callback w 1) 1001] at h2 ⊢
    obtain ⟨-, -, -, hl⟩ := enter_held w _ 0 (wellTimed_run w hw _ _ hwt)
      (by rw [h1]; decide) h2
    rw [isHeldRepeat_true _ ((isHeld_iff _).2 h2) hl]

/-- After a tick that reads the released level, `isHeldRepeat()` returns false. -/
theorem isHeldRepeat_after_release (w : Nat) (h : Button) :
    ((h.callback w 1).isHeldRepeat).2 = false := by
  rw [callback_released, isHeldRepeat_false _ (by simp [Button.isHeld, Button.IDLE, Button.HELD])]

/-- Refutation of C7 as stated, where the button may be released: a fresh Button
is held down for 1001 ticks and tick 1002 enters `HELD`. If the next tick reads
the released level, the first `isHeldRepeat()` call after the entry into `HELD`
returns false. And if the call is made at once and returns true, a release
followed by a new press of 1002 ticks, on none of which the `HELD` self-loop
timeout fires, makes a later call return true again. -/
theorem hold_repeat_edge_fails_on_release :
    (run 16 (Button.ctor 0) (pressedTicks 1001))._state ≠ Button.HELD ∧
    ((run 16 (Button.ctor 0) (pressedTicks 1001)).callback 16 0)._state = Button.HELD ∧
    ((((run 16 (Button.ctor 0) (pressedTicks 1001)).callback 16 0).callback 16
      1).isHeldRepeat).2 = false ∧
    (((run 16 (Button.ctor 0) (pressedTicks 1001)).callback 16 0).isHeldRepeat).2 = true ∧
    firings 16 (((run 16 (Button.ctor 0) (pressedTicks 1001)).callback 16 0).isHeldRepeat).1
      (Call.callback 1 :: pressedTicks 1002) = 0 ∧
    ((run 16 (((run 16 (Button.ctor 0) (pressedTicks 1001)).callback 16 0).isHeldRepeat).1
      (Call.callback 1 :: pressedTicks 1002)).isHeldRepeat).2 = true := by
  have hw : 16 ≤ 16 := Nat.le_refl _
  have h1 := (fresh_state 16 hw 0 1001).2.1 (by decide)
  have h2 := (fresh_state 16 hw 0 1002).2.2 (by decide)
  rw [run_pressedTicks_succ 16 (Button.ctor 0) 1001] at h2
  have hne : (run 16 (Button.ctor 0) (pressedTicks 1001))._state ≠ Button.HELD := by
    rw [h1]; decide
  obtain ⟨-, -, -, hl⟩ := enter_held 16 _ 0 (wellTimed_run 16 hw _ _ (wellTimed_ctor 0)) hne h2
  obtain ⟨h3, h4⟩ := repress_rearms 16 hw
    (((run 16 (Button.ctor 0) (pressedTicks 1001)).callback 16 0).isHeldRepeat).1
  refine ⟨hne, h2, isHeldRepeat_after_release 16 _, ?_, h3, h4⟩
  rw [isHeldRepeat_true _ ((isHeld_iff _).2 h2) hl]
